import Mathlib

set_option maxRecDepth 1000000

/-!
Verification of the invoice field patch engine of the update-invoices-xmls
repository.  The live engine is the literal-text one in src/parserv2.py
(files.py instantiates src.parserv2.XMLHealthInvoiceProcessor); the legacy
tree engine in src/parser.py is modelled where a claim cites it.

Documents are modelled as lists of characters.  Python str.replace with a
non-empty pattern is modelled as: split the text on the non-overlapping,
left-to-right occurrences of the pattern and join the pieces with the
replacement (the standard identity s.replace(old, new) = new.join(s.split(old))).
Python substring membership (the in operator) is modelled by inStr, and
str.count by countOcc (same non-overlapping scan as str.replace).
-/

namespace InvoiceXml

/-- Splitter with explicit fuel (the fuel only makes the recursion structural;
all uses supply fuel at least the length of the text, see splitOnF_eq).
Mirrors the left-to-right, non-overlapping scan of Python str.split. -/
def splitOnF (sep : List Char) : Nat → List Char → List (List Char)
  | _, [] => [[]]
  | 0, s => [s]
  | fuel + 1, c :: cs =>
    if !sep.isEmpty && sep.isPrefixOf (c :: cs) then
      [] :: splitOnF sep fuel ((c :: cs).drop sep.length)
    else
      match splitOnF sep fuel cs with
      | [] => [[c]]
      | chunk :: rest => (c :: chunk) :: rest

/-- Python str.split on a non-empty separator. -/
def splitOnL (sep s : List Char) : List (List Char) := splitOnF sep s.length s

/-- Join a list of chunks with a separator between consecutive chunks. -/
def interc (rep : List Char) : List (List Char) → List Char
  | [] => []
  | [c] => c
  | c :: c' :: t => c ++ rep ++ interc rep (c' :: t)

/-- Python str.replace: replace every non-overlapping occurrence of sep
(scanned left to right) by rep. -/
def replaceAll (sep rep s : List Char) : List Char := interc rep (splitOnL sep s)

/-- Occurrence counter with fuel, same scan as splitOnF. -/
def countOccF (pat : List Char) : Nat → List Char → Nat
  | _, [] => 0
  | 0, _ => 0
  | fuel + 1, c :: cs =>
    if !pat.isEmpty && pat.isPrefixOf (c :: cs) then
      countOccF pat fuel ((c :: cs).drop pat.length) + 1
    else
      countOccF pat fuel cs

/-- Python str.count: number of non-overlapping occurrences. -/
def countOcc (pat s : List Char) : Nat := countOccF pat s.length s

/-- Python substring membership: pat in s. -/
def inStr (pat : List Char) : List Char → Bool
  | [] => pat.isEmpty
  | c :: cs => pat.isPrefixOf (c :: cs) || inStr pat cs

/-! The five placeholder patterns (TagXML.original_string literals of
src/parserv2.py, lines 62-114) and the context markers. -/

/-- parserv2.py line 63: placeholder shape of the provider-code field. -/
def codigo_prestador_str : List Char :=
  "<Name>CODIGO_PRESTADOR</Name>\n                  <Value>Array</Value>".data

/-- parserv2.py line 69: placeholder shape of the payment-modality field. -/
def modalidad_pago_str : List Char :=
  "<Name>MODALIDAD_PAGO</Name>\n                  <Value schemeID=\"Array\" schemeName=\"salud_modalidad_pago.gc\"></Value>".data

/-- parserv2.py line 75: placeholder shape of the coverage field. -/
def cobertura_str : List Char :=
  "<Name>COBERTURA_PLAN_BENEFICIOS</Name>\n                  <Value schemeID=\"Array\" schemeName=\"salud_cobertura.gc\"></Value>".data

/-- parserv2.py line 80: placeholder shape of the contract-number field. -/
def numero_contrato_str : List Char :=
  "<Name>NUMERO_CONTRATO</Name>\n                  <Value>Array</Value>".data

/-- parserv2.py line 85: placeholder shape of the policy-number field. -/
def numero_poliza_str : List Char :=
  "<Name>NUMERO_POLIZA</Name>\n                  <Value>Array</Value>".data

/-- parserv2.py line 98: context marker Evento NO PBS. -/
def evento_no_pbs_str : List Char := "Evento NO PBS".data

/-- parserv2.py line 94: context marker Evento PBS. -/
def evento_pbs_str : List Char := "Evento PBS".data

/-- parserv2.py line 106: context marker Subsidiado. -/
def subsidiado_str : List Char := "Subsidiado".data

/-- parserv2.py line 110: context marker Contributivo. -/
def contributivo_str : List Char := "Contributivo".data

/-- parserv2.py line 102: presence marker of the invoice period block. -/
def invoice_period_str : List Char := "<cac:InvoicePeriod>".data

/-- parserv2.py line 114: the line-count anchor (closing tag). -/
def line_counter_str : List Char := "</cbc:LineCountNumeric>".data

/-! Replacement strings.  Each logic_* method builds its replacement by
applying str.replace to the original placeholder string (parserv2.py
lines 121-160), which we mirror with replaceAll on the same literals. -/

/-- parserv2.py lines 123-124: provider-code replacement. -/
def codigo_prestador_new : List Char :=
  replaceAll "<Value>Array</Value>".data "<Value>0800185010</Value>".data codigo_prestador_str

/-- parserv2.py lines 129-131: payment-modality replacement. -/
def modalidad_pago_new : List Char :=
  replaceAll "<Value schemeID=\"Array\" schemeName=\"salud_modalidad_pago.gc\"></Value>".data
    "<Value schemeID=\"04\" schemeName=\"salud_modalidad_pago.gc\">Pago por evento</Value>".data
    modalidad_pago_str

/-- parserv2.py lines 136-143: coverage replacement for the Evento NO PBS branch. -/
def cobertura_new_02 : List Char :=
  replaceAll "<Value schemeID=\"Array\" schemeName=\"salud_cobertura.gc\"></Value>".data
    "<Value schemeID=\"02\" schemeName=\"salud_cobertura.gc\">Presupuesto máximo</Value>".data
    cobertura_str

/-- parserv2.py lines 138-143: coverage replacement for the Evento PBS branch. -/
def cobertura_new_01 : List Char :=
  replaceAll "<Value schemeID=\"Array\" schemeName=\"salud_cobertura.gc\"></Value>".data
    "<Value schemeID=\"01\" schemeName=\"salud_cobertura.gc\">Plan de beneficios en salud financiado con UPC</Value>".data
    cobertura_str

/-- parserv2.py lines 148-154: contract-number replacement, Subsidiado branch. -/
def numero_contrato_new_subsidiado : List Char :=
  replaceAll "<Value>Array</Value>".data "<Value>10787</Value>".data numero_contrato_str

/-- parserv2.py lines 150-154: contract-number replacement, Contributivo branch. -/
def numero_contrato_new_contributivo : List Char :=
  replaceAll "<Value>Array</Value>".data "<Value>3672</Value>".data numero_contrato_str

/-- parserv2.py line 159: policy-number replacement. -/
def numero_poliza_new : List Char :=
  replaceAll "<Value>Array</Value>".data "<Value>NA</Value>".data numero_poliza_str

/-- parserv2.py lines 184-186: update_content replaces every occurrence of the
original placeholder string in the content by the new string. -/
def update_content (original_string new_string content : List Char) : List Char :=
  replaceAll original_string new_string content

/-- One character of the date shape matched by the regex group
(digits and the dash). -/
def dateChar (c : Char) : Bool := c.isDigit || c == '-'

/-- Shape of a regex match of the group in FecFac: (d d d d - d d - d d),
ten characters.  Python re uses unicode digits; the engine only ever meets
ASCII dates, which Char.isDigit captures. -/
def isDateShape : List Char → Bool
  | [c0, c1, c2, c3, c4, c5, c6, c7, c8, c9] =>
    c0.isDigit && c1.isDigit && c2.isDigit && c3.isDigit && c4 == '-' &&
    c5.isDigit && c6.isDigit && c7 == '-' && c8.isDigit && c9.isDigit
  | _ => false

/-- parserv2.py line 118: the textual pattern FecFac: before the date. -/
def fecfac_str : List Char := "FecFac: ".data

/-- parserv2.py lines 116-119: re.search of FecFac: (d4-d2-d2) over the
content; leftmost position where the whole pattern matches, returning the
captured ten-character date, none when there is no match. -/
def issue_date : List Char → Option (List Char)
  | [] => none
  | c :: cs =>
    if fecfac_str.isPrefixOf (c :: cs) && isDateShape (((c :: cs).drop 8).take 10) then
      some (((c :: cs).drop 8).take 10)
    else issue_date cs

/-- Constant part of the synthesized period block up to the first date
(anchor tag included), see parserv2.py lines 174-180. -/
def periodP0 : List Char :=
  "</cbc:LineCountNumeric>\n<cac:InvoicePeriod>\n <cbc:StartDate>".data

/-- Constant part of the synthesized period block between the two dates. -/
def periodP1 : List Char :=
  "</cbc:StartDate>\n <cbc:StartTime>12:00:00</cbc:StartTime>\n <cbc:EndDate>".data

/-- Constant tail of the synthesized period block. -/
def periodP2 : List Char :=
  "</cbc:EndDate>\n <cbc:EndTime>11:59:59</cbc:EndTime>\n</cac:InvoicePeriod>".data

/-- parserv2.py lines 174-180: the f-string new_invoice_period, anchored at
the line-count closing tag and carrying the issue date twice. -/
def new_invoice_period (d : List Char) : List Char :=
  periodP0 ++ d ++ periodP1 ++ d ++ periodP2

/-- parserv2.py lines 121-125: logic_codigo_prestador. -/
def logic_codigo_prestador (content : List Char) : List Char :=
  if inStr codigo_prestador_str content then
    update_content codigo_prestador_str codigo_prestador_new content
  else content

/-- parserv2.py lines 127-132: logic_modalidad_pago. -/
def logic_modalidad_pago (content : List Char) : List Char :=
  if inStr modalidad_pago_str content then
    update_content modalidad_pago_str modalidad_pago_new content
  else content

/-- parserv2.py lines 134-144: logic_cobertura, ordered if and elif over the
Evento NO PBS and Evento PBS markers, no-op when neither is present. -/
def logic_cobertura (content : List Char) : List Char :=
  if inStr cobertura_str content then
    if inStr evento_no_pbs_str content then
      update_content cobertura_str cobertura_new_02 content
    else if inStr evento_pbs_str content then
      update_content cobertura_str cobertura_new_01 content
    else content
  else content

/-- parserv2.py lines 146-155: logic_numero_contrato, ordered if and elif
over the Subsidiado and Contributivo markers, no-op when neither is present. -/
def logic_numero_contrato (content : List Char) : List Char :=
  if inStr numero_contrato_str content then
    if inStr subsidiado_str content then
      update_content numero_contrato_str numero_contrato_new_subsidiado content
    else if inStr contributivo_str content then
      update_content numero_contrato_str numero_contrato_new_contributivo content
    else content
  else content

/-- parserv2.py lines 157-160: logic_numero_poliza. -/
def logic_numero_poliza (content : List Char) : List Char :=
  if inStr numero_poliza_str content then
    update_content numero_poliza_str numero_poliza_new content
  else content

/-- parserv2.py lines 162-182: logic_invoice_period.  Skips when the block
is already present, when the anchor is absent or when no issue date can be
extracted (the skipped cases only log a warning); otherwise replaces every
anchor occurrence by the anchor followed by the synthesized block. -/
def logic_invoice_period (content : List Char) : List Char :=
  if inStr invoice_period_str content then content
  else if !(inStr line_counter_str content) then content
  else
    match issue_date content with
    | none => content
    | some d => update_content line_counter_str (new_invoice_period d) content

/-- parserv2.py lines 188-195: process_all runs the six rules in order on the
cached content. -/
def process_all (content : List Char) : List Char :=
  logic_invoice_period (logic_numero_poliza (logic_numero_contrato
    (logic_modalidad_pago (logic_codigo_prestador (logic_cobertura content)))))

/-! Analysis predicates used by the theorems (these are properties of
pattern and replacement pairs, not program code). -/

/-- No occurrence of pat can straddle the edge of an inserted copy of rep:
no proper non-empty front part of pat ends rep, and no proper non-empty
tail part of pat starts rep or swallows rep as its own front. -/
def NoStraddle (pat rep : List Char) : Prop :=
  (∀ a, 0 < a → a < pat.length → ¬ pat.take a <:+ rep) ∧
  (∀ b, 0 < b → b < pat.length → ¬ pat.drop b <+: rep ∧ ¬ rep <+: pat.drop b)

/-- rep neither contains pat nor lets pat straddle its edges. -/
def SafePair (pat rep : List Char) : Prop := ¬ pat <:+: rep ∧ NoStraddle pat rep

/-- Executable check equivalent to NoStraddle (quantifiers turned into
bounded scans so that kernel evaluation is cheap). -/
def straddleChecks (pat rep : List Char) : Bool :=
  ((List.range rep.length).all fun j =>
    !(decide (rep.length - j < pat.length) && (rep.drop j).isPrefixOf pat)) &&
  ((List.range pat.length).all fun b =>
    !(decide (0 < b) && ((pat.drop b).isPrefixOf rep || rep.isPrefixOf (pat.drop b))))

/-- Executable check sufficient for SafePair. -/
def safeChecks (pat rep : List Char) : Bool :=
  !(inStr pat rep) && straddleChecks pat rep

/-- Executable check sufficient for SafePair X (new_invoice_period d) for
every well-shaped date d: X is non-empty, shares no character with dates,
has no colon, does not sit inside any constant piece of the block, no tail
of the constant tail piece starts X, and no tail of X starts the constant
head piece. -/
def periodChecks (X : List Char) : Bool :=
  !X.isEmpty &&
  X.all (fun ch => !dateChar ch) &&
  X.all (fun ch => ch != ':') &&
  !(inStr X periodP0) && !(inStr X periodP1) && !(inStr X periodP2) &&
  ((List.range periodP2.length).all fun j =>
    !(decide (periodP2.length - j < X.length) && (periodP2.drop j).isPrefixOf X)) &&
  ((List.range X.length).all fun b =>
    !(decide (0 < b) && (X.drop b).isPrefixOf periodP0))

/-- y is obtained from x by replacing the occurrences of one pattern, every
byte outside the occurrence spans kept verbatim: both sides are the same
chunk sequence, joined once with the pattern and once with the replacement. -/
def Splice (x y : List Char) : Prop :=
  x = y ∨ ∃ sep rep chunks, sep ≠ [] ∧ (∀ ch ∈ chunks, ¬ sep <:+: ch) ∧
    x = interc sep chunks ∧ y = interc rep chunks

/-! Model of pathlib paths as used by save (parserv2.py lines 197-215):
a path splits into a directory part, a stem and a final suffix;
Path.with_stem replaces the stem and keeps directory and suffix. -/

structure SPath where
  dir : List String
  stem : String
  suffix : String
deriving DecidableEq

/-- pathlib Path.with_stem. -/
def with_stem (p : SPath) (s : String) : SPath := { p with stem := s }

/-- parserv2.py lines 197-215: save.  With no output path the code derives
with_stem(input.stem) and writes the current content there verbatim with
write_text; the written path is returned.  Result: (path written, bytes written). -/
def save_v2 (input_path : SPath) (content : List Char) : Option SPath → SPath × List Char
  | none => (with_stem input_path input_path.stem, content)
  | some p => (p, content)

/-! Model of the lazy content cache (parserv2.py lines 46-59): the state
carries the on-disk text, the Optional cache field and a counter of file
reads performed. -/

structure ProcessorState where
  file_content : List Char
  cached : Option (List Char)
  file_reads : Nat

/-- parserv2.py lines 39-47: a fresh processor has an empty cache. -/
def init_processor (fc : List Char) : ProcessorState := ⟨fc, none, 0⟩

/-- parserv2.py lines 49-55: the content property; on a cache miss it reads
the file once and stores the text, on a hit it returns the cached value. -/
def content_get (s : ProcessorState) : List Char × ProcessorState :=
  match s.cached with
  | some v => (v, s)
  | none =>
    (s.file_content,
      { s with
          cached := some s.file_content
          file_reads := s.file_reads + 1 })

/-- n successive accesses of the content property. -/
def content_get_n : Nat → ProcessorState → ProcessorState
  | 0, s => s
  | n + 1, s => content_get_n n (content_get s).2

/-! Model of the legacy tree engine accessor (parser.py lines 29-47).
The method named soup checks the field named underscore-content, but the
branch only ever assigns the field named underscore-soup, so the checked
field stays None and the file is re-read (and re-parsed) on every call.
The parse result is abstracted as the raw text, which is enough to count
file reads. -/

structure SoupState where
  file_content : List Char
  scontent : Option (List Char)
  ssoup : Option (List Char)
  file_reads : Nat

/-- parser.py lines 19-27: fresh state, both fields None. -/
def init_soup (fc : List Char) : SoupState := ⟨fc, none, none, 0⟩

/-- parser.py lines 39-47: the body of soup.  The guard tests scontent,
the assignment writes ssoup, scontent is never written. -/
def soup_get (s : SoupState) : List Char × SoupState :=
  match s.scontent with
  | none =>
    (s.file_content,
      { s with
          ssoup := some s.file_content
          file_reads := s.file_reads + 1 })
  | some _ => (s.ssoup.getD [], s)

/-! Model of the nested-document selection of the tree engine
(parser.py lines 49-69): the Description tags are carried as the list of
their string contents (None when the tag has no single string child);
the code slices the match list with [1:2], keeps entries whose content is
truthy (a None or empty string is skipped) and parses them (the lenient
BeautifulSoup constructor does not raise on strings). -/

/-- Python truthiness filter on an optional string. -/
def truthyContent : Option (List Char) → Option (List Char)
  | none => none
  | some s => if s.isEmpty then none else some s

/-- parser.py lines 49-69: nested documents selected for patching. -/
def get_all_description_xmls (descs : List (Option (List Char))) : List (List Char) :=
  ((descs.drop 1).take 1).filterMap truthyContent

/-- parser.py lines 230-233: the statistics dictionary. -/
structure PatchStats where
  description_xmls_processed : Nat
  invoice_period_added : Bool
deriving DecidableEq

/-- parserv2.py lines 188-195: the literal-text process_all mutates the
content and falls off the end of the function, so its Python return value
is None: no statistics record is produced. -/
def process_all_v2_ret (content : List Char) : List Char × Option PatchStats :=
  (process_all content, none)

/-! Concrete witness documents. -/

/-- Witness document: contract placeholder with both regime markers. -/
def wDocContrBoth : List Char := numero_contrato_str ++ " Subsidiado Contributivo".data

/-- Witness document: contract placeholder with the Contributivo marker only. -/
def wDocContrContrib : List Char := numero_contrato_str ++ " Contributivo".data

/-- Witness document: anchor followed by an issue date. -/
def wDocPeriod : List Char := line_counter_str ++ " FecFac: 2025-07-29".data

/-- Witness document: two provider-code placeholders. -/
def wDocPrestTwice : List Char := codigo_prestador_str ++ codigo_prestador_str

/-- Witness document: two anchors and an issue date. -/
def wDocPeriodTwice : List Char :=
  line_counter_str ++ line_counter_str ++ " FecFac: 2025-07-29".data

/-- Witness document: a document already holding one period block. -/
def wDocPeriodPresent : List Char :=
  "<x>".data ++ invoice_period_str ++ "</x>".data

/-! ### Basic lemmas about the string primitives -/

theorem inStr_iff {pat s : List Char} : inStr pat s = true ↔ pat <:+: s := by
  induction s with
  | nil => simp [inStr, List.isEmpty_iff]
  | cons c cs ih => simp [inStr, List.infix_cons_iff, ih]

theorem guard_iff (sep s : List Char) :
    (!sep.isEmpty && sep.isPrefixOf s) = true ↔ sep ≠ [] ∧ sep <+: s := by
  simp [List.isEmpty_iff]

theorem splitOnF_ne_nil (sep : List Char) :
    ∀ (f : Nat) (s : List Char), splitOnF sep f s ≠ [] := by
  intro f s
  match f, s with
  | _, [] => simp [splitOnF]
  | 0, c :: cs => simp [splitOnF]
  | f + 1, c :: cs =>
    simp only [splitOnF]
    split
    · simp
    · split <;> simp

theorem splitOnF_congr (sep : List Char) :
    ∀ (f g : Nat) (s : List Char), s.length ≤ f → s.length ≤ g →
      splitOnF sep f s = splitOnF sep g s := by
  intro f
  induction f with
  | zero =>
    intro g s hf _
    have hz : s.length = 0 := Nat.le_zero.mp hf
    have : s = [] := List.length_eq_zero.mp hz
    subst this
    cases g <;> rfl
  | succ f ih =>
    intro g s hf hg
    cases s with
    | nil => cases g <;> rfl
    | cons c cs =>
      cases g with
      | zero => simp at hg
      | succ g' =>
        have hcs : cs.length ≤ f := by simpa using hf
        have hcs' : cs.length ≤ g' := by simpa using hg
        simp only [splitOnF]
        by_cases hguard : (!sep.isEmpty && sep.isPrefixOf (c :: cs)) = true
        · rw [if_pos hguard, if_pos hguard]
          have hsep : sep ≠ [] := ((guard_iff sep (c :: cs)).mp hguard).1
          have hlen : 1 ≤ sep.length := List.length_pos.mpr hsep
          have hd : ((c :: cs).drop sep.length).length ≤ f := by
            simp only [List.length_drop, List.length_cons]
            omega
          have hd' : ((c :: cs).drop sep.length).length ≤ g' := by
            simp only [List.length_drop, List.length_cons]
            omega
          rw [ih g' _ hd hd']
        · rw [if_neg hguard, if_neg hguard, ih g' cs hcs hcs']

theorem splitOnL_nil (sep : List Char) : splitOnL sep [] = [[]] := rfl

theorem splitOnL_cons_pos {sep : List Char} (hsep : sep ≠ []) {c : Char}
    {cs : List Char} (h : sep <+: (c :: cs)) :
    splitOnL sep (c :: cs) = [] :: splitOnL sep ((c :: cs).drop sep.length) := by
  have hguard : (!sep.isEmpty && sep.isPrefixOf (c :: cs)) = true :=
    (guard_iff sep (c :: cs)).mpr ⟨hsep, h⟩
  show splitOnF sep (cs.length + 1) (c :: cs) = _
  simp only [splitOnF]
  rw [if_pos hguard]
  congr 1
  apply splitOnF_congr
  · have : 1 ≤ sep.length := List.length_pos.mpr hsep
    simp only [List.length_drop, List.length_cons]
    omega
  · exact Nat.le_refl _

theorem splitOnL_cons_neg {sep : List Char} {c : Char} {cs : List Char}
    (h : ¬ sep <+: (c :: cs)) {chunk : List Char} {rest : List (List Char)}
    (he : splitOnL sep cs = chunk :: rest) :
    splitOnL sep (c :: cs) = (c :: chunk) :: rest := by
  have hguard : (!sep.isEmpty && sep.isPrefixOf (c :: cs)) = false := by
    rw [Bool.eq_false_iff]
    intro hc
    exact h ((guard_iff sep (c :: cs)).mp hc).2
  show splitOnF sep (cs.length + 1) (c :: cs) = _
  simp only [splitOnF]
  rw [if_neg (by simp [hguard])]
  have : splitOnF sep cs.length cs = chunk :: rest := he
  rw [this]

theorem splitOnL_ne_nil (sep s : List Char) : splitOnL sep s ≠ [] :=
  splitOnF_ne_nil sep s.length s

theorem countOccF_congr (pat : List Char) :
    ∀ (f g : Nat) (s : List Char), s.length ≤ f → s.length ≤ g →
      countOccF pat f s = countOccF pat g s := by
  intro f
  induction f with
  | zero =>
    intro g s hf _
    have : s = [] := List.length_eq_zero.mp (Nat.le_zero.mp hf)
    subst this
    cases g <;> rfl
  | succ f ih =>
    intro g s hf hg
    cases s with
    | nil => cases g <;> rfl
    | cons c cs =>
      cases g with
      | zero => simp at hg
      | succ g' =>
        have hcs : cs.length ≤ f := by simpa using hf
        have hcs' : cs.length ≤ g' := by simpa using hg
        simp only [countOccF]
        by_cases hguard : (!pat.isEmpty && pat.isPrefixOf (c :: cs)) = true
        · rw [if_pos hguard, if_pos hguard]
          have hpat : pat ≠ [] := ((guard_iff pat (c :: cs)).mp hguard).1
          have hlen : 1 ≤ pat.length := List.length_pos.mpr hpat
          have hd : ((c :: cs).drop pat.length).length ≤ f := by
            simp only [List.length_drop, List.length_cons]
            omega
          have hd' : ((c :: cs).drop pat.length).length ≤ g' := by
            simp only [List.length_drop, List.length_cons]
            omega
          rw [ih g' _ hd hd']
        · rw [if_neg hguard, if_neg hguard, ih g' cs hcs hcs']

theorem countOcc_nil (pat : List Char) : countOcc pat [] = 0 := rfl

theorem countOcc_cons_pos {pat : List Char} (hpat : pat ≠ []) {c : Char}
    {cs : List Char} (h : pat <+: (c :: cs)) :
    countOcc pat (c :: cs) = countOcc pat ((c :: cs).drop pat.length) + 1 := by
  have hguard : (!pat.isEmpty && pat.isPrefixOf (c :: cs)) = true :=
    (guard_iff pat (c :: cs)).mpr ⟨hpat, h⟩
  show countOccF pat (cs.length + 1) (c :: cs) = _
  simp only [countOccF]
  rw [if_pos hguard]
  congr 1
  apply countOccF_congr
  · have : 1 ≤ pat.length := List.length_pos.mpr hpat
    simp only [List.length_drop, List.length_cons]
    omega
  · exact Nat.le_refl _

theorem countOcc_cons_neg {pat : List Char} {c : Char} {cs : List Char}
    (h : ¬ pat <+: (c :: cs)) :
    countOcc pat (c :: cs) = countOcc pat cs := by
  have hguard : (!pat.isEmpty && pat.isPrefixOf (c :: cs)) = false := by
    rw [Bool.eq_false_iff]
    intro hc
    exact h ((guard_iff pat (c :: cs)).mp hc).2
  show countOccF pat (cs.length + 1) (c :: cs) = _
  simp only [countOccF]
  rw [if_neg (by simp [hguard])]
  rfl

/-! ### Structure of the chunk list produced by splitOnL -/

theorem interc_cons_head (rep : List Char) (c : Char) (x : List Char)
    (r : List (List Char)) :
    interc rep ((c :: x) :: r) = c :: interc rep (x :: r) := by
  cases r <;> simp [interc]

theorem splitOnF_head_pref (sep : List Char) :
    ∀ (f : Nat) (s : List Char), s.length ≤ f →
      ∀ chunk rest, splitOnF sep f s = chunk :: rest → chunk <+: s := by
  intro f
  induction f with
  | zero =>
    intro s hf chunk rest he
    have : s = [] := List.length_eq_zero.mp (Nat.le_zero.mp hf)
    subst this
    simp [splitOnF] at he
    simp [he.1]
  | succ f ih =>
    intro s hf chunk rest he
    cases s with
    | nil =>
      simp [splitOnF] at he
      simp [he.1]
    | cons c cs =>
      have hcs : cs.length ≤ f := by simpa using hf
      simp only [splitOnF] at he
      by_cases hguard : (!sep.isEmpty && sep.isPrefixOf (c :: cs)) = true
      · rw [if_pos hguard] at he
        have : chunk = [] := (List.cons.injEq _ _ _ _ ▸ he).1.symm
        simp [this]
      · rw [if_neg hguard] at he
        obtain ⟨ch0, r0, he0⟩ : ∃ ch0 r0, splitOnF sep f cs = ch0 :: r0 := by
          cases h0 : splitOnF sep f cs with
          | nil => exact absurd h0 (splitOnF_ne_nil sep f cs)
          | cons a b => exact ⟨a, b, rfl⟩
        rw [he0] at he
        have h1 : chunk = c :: ch0 := (List.cons.injEq _ _ _ _ ▸ he).1.symm
        have h2 : ch0 <+: cs := ih cs hcs ch0 r0 he0
        rw [h1]
        exact List.cons_prefix_cons.mpr ⟨rfl, h2⟩

theorem splitOnL_head_pref {sep s : List Char} {chunk : List Char}
    {rest : List (List Char)} (he : splitOnL sep s = chunk :: rest) :
    chunk <+: s :=
  splitOnF_head_pref sep s.length s (Nat.le_refl _) chunk rest he

theorem splitOnF_chunk_no_sep {sep : List Char} (hsep : sep ≠ []) :
    ∀ (f : Nat) (s : List Char), s.length ≤ f →
      ∀ ch ∈ splitOnF sep f s, ¬ sep <:+: ch := by
  intro f
  induction f with
  | zero =>
    intro s hf ch hch
    have : s = [] := List.length_eq_zero.mp (Nat.le_zero.mp hf)
    subst this
    simp [splitOnF] at hch
    subst hch
    simp [hsep]
  | succ f ih =>
    intro s hf ch hch
    cases s with
    | nil =>
      simp [splitOnF] at hch
      subst hch
      simp [hsep]
    | cons c cs =>
      have hcs : cs.length ≤ f := by simpa using hf
      simp only [splitOnF] at hch
      by_cases hguard : (!sep.isEmpty && sep.isPrefixOf (c :: cs)) = true
      · rw [if_pos hguard] at hch
        rcases List.mem_cons.mp hch with h | h
        · subst h
          simp [hsep]
        · have hsl : 1 ≤ sep.length := List.length_pos.mpr hsep
          have hd : ((c :: cs).drop sep.length).length ≤ f := by
            simp only [List.length_drop, List.length_cons]
            omega
          exact ih _ hd ch h
      · rw [if_neg hguard] at hch
        have hnp : ¬ sep <+: (c :: cs) := by
          intro hp
          exact hguard ((guard_iff sep (c :: cs)).mpr ⟨hsep, hp⟩)
        obtain ⟨ch0, r0, he0⟩ : ∃ ch0 r0, splitOnF sep f cs = ch0 :: r0 := by
          cases h0 : splitOnF sep f cs with
          | nil => exact absurd h0 (splitOnF_ne_nil sep f cs)
          | cons a b => exact ⟨a, b, rfl⟩
        rw [he0] at hch
        rcases List.mem_cons.mp hch with h | h
        · subst h
          intro hsub
          rcases List.infix_cons_iff.mp hsub with hp | hi
          · have h2 : ch0 <+: cs := splitOnF_head_pref sep f cs hcs ch0 r0 he0
            have : (c :: ch0) <+: (c :: cs) := List.cons_prefix_cons.mpr ⟨rfl, h2⟩
            exact hnp (hp.trans this)
          · exact ih cs hcs ch0 (he0 ▸ List.mem_cons_self _ _) hi
        · exact ih cs hcs ch (he0 ▸ List.mem_cons_of_mem _ h)

theorem splitOnL_chunk_no_sep {sep s : List Char} (hsep : sep ≠ [])
    {ch : List Char} (hch : ch ∈ splitOnL sep s) : ¬ sep <:+: ch :=
  splitOnF_chunk_no_sep hsep s.length s (Nat.le_refl _) ch hch

theorem splitOnF_chunk_sub (sep : List Char) :
    ∀ (f : Nat) (s : List Char), s.length ≤ f →
      ∀ ch ∈ splitOnF sep f s, ch <:+: s := by
  intro f
  induction f with
  | zero =>
    intro s hf ch hch
    have : s = [] := List.length_eq_zero.mp (Nat.le_zero.mp hf)
    subst this
    simp [splitOnF] at hch
    simp [hch]
  | succ f ih =>
    intro s hf ch hch
    cases s with
    | nil =>
      simp [splitOnF] at hch
      simp [hch]
    | cons c cs =>
      have hcs : cs.length ≤ f := by simpa using hf
      simp only [splitOnF] at hch
      by_cases hguard : (!sep.isEmpty && sep.isPrefixOf (c :: cs)) = true
      · rw [if_pos hguard] at hch
        rcases List.mem_cons.mp hch with h | h
        · subst h
          simp
        · have hsep : sep ≠ [] := ((guard_iff sep (c :: cs)).mp hguard).1
          have hsl : 1 ≤ sep.length := List.length_pos.mpr hsep
          have hd : ((c :: cs).drop sep.length).length ≤ f := by
            simp only [List.length_drop, List.length_cons]
            omega
          have h1 : ch <:+: (c :: cs).drop sep.length := ih _ hd ch h
          exact h1.trans (List.drop_suffix _ _).isInfix
      · rw [if_neg hguard] at hch
        obtain ⟨ch0, r0, he0⟩ : ∃ ch0 r0, splitOnF sep f cs = ch0 :: r0 := by
          cases h0 : splitOnF sep f cs with
          | nil => exact absurd h0 (splitOnF_ne_nil sep f cs)
          | cons a b => exact ⟨a, b, rfl⟩
        rw [he0] at hch
        rcases List.mem_cons.mp hch with h | h
        · subst h
          have h2 : ch0 <+: cs := splitOnF_head_pref sep f cs hcs ch0 r0 he0
          exact (List.cons_prefix_cons.mpr ⟨rfl, h2⟩).isInfix
        · have h1 : ch <:+: cs := ih cs hcs ch (he0 ▸ List.mem_cons_of_mem _ h)
          exact h1.trans (List.suffix_cons c cs).isInfix

theorem splitOnL_chunk_sub {sep s : List Char} {ch : List Char}
    (hch : ch ∈ splitOnL sep s) : ch <:+: s :=
  splitOnF_chunk_sub sep s.length s (Nat.le_refl _) ch hch

theorem splitOnF_reconstruct {sep : List Char} (hsep : sep ≠ []) :
    ∀ (f : Nat) (s : List Char), s.length ≤ f →
      interc sep (splitOnF sep f s) = s := by
  intro f
  induction f with
  | zero =>
    intro s hf
    have : s = [] := List.length_eq_zero.mp (Nat.le_zero.mp hf)
    subst this
    rfl
  | succ f ih =>
    intro s hf
    cases s with
    | nil => rfl
    | cons c cs =>
      have hcs : cs.length ≤ f := by simpa using hf
      simp only [splitOnF]
      by_cases hguard : (!sep.isEmpty && sep.isPrefixOf (c :: cs)) = true
      · rw [if_pos hguard]
        have hp : sep <+: (c :: cs) := ((guard_iff sep (c :: cs)).mp hguard).2
        have hsl : 1 ≤ sep.length := List.length_pos.mpr hsep
        have hd : ((c :: cs).drop sep.length).length ≤ f := by
          simp only [List.length_drop, List.length_cons]
          omega
        obtain ⟨ch0, r0, he0⟩ :
            ∃ ch0 r0, splitOnF sep f ((c :: cs).drop sep.length) = ch0 :: r0 := by
          cases h0 : splitOnF sep f ((c :: cs).drop sep.length) with
          | nil => exact absurd h0 (splitOnF_ne_nil sep f _)
          | cons a b => exact ⟨a, b, rfl⟩
        rw [he0]
        have hrec : interc sep (ch0 :: r0) = (c :: cs).drop sep.length := by
          rw [← he0]
          exact ih _ hd
        have hstep : interc sep ([] :: ch0 :: r0) = sep ++ interc sep (ch0 :: r0) := by
          simp [interc]
        rw [hstep, hrec]
        exact List.prefix_iff_eq_append.mp hp
      · rw [if_neg hguard]
        obtain ⟨ch0, r0, he0⟩ : ∃ ch0 r0, splitOnF sep f cs = ch0 :: r0 := by
          cases h0 : splitOnF sep f cs with
          | nil => exact absurd h0 (splitOnF_ne_nil sep f cs)
          | cons a b => exact ⟨a, b, rfl⟩
        rw [he0, interc_cons_head]
        have : interc sep (ch0 :: r0) = cs := by
          rw [← he0]
          exact ih cs hcs
        rw [this]

theorem splitOnL_reconstruct {sep : List Char} (hsep : sep ≠ [])
    (s : List Char) : interc sep (splitOnL sep s) = s :=
  splitOnF_reconstruct hsep s.length s (Nat.le_refl _)

theorem splitOnF_two_chunks {sep : List Char} (hsep : sep ≠ []) :
    ∀ (f : Nat) (s : List Char), s.length ≤ f → sep <:+: s →
      2 ≤ (splitOnF sep f s).length := by
  intro f
  induction f with
  | zero =>
    intro s hf hsub
    have : s = [] := List.length_eq_zero.mp (Nat.le_zero.mp hf)
    subst this
    exact absurd (List.infix_nil.mp hsub) hsep
  | succ f ih =>
    intro s hf hsub
    cases s with
    | nil => exact absurd (List.infix_nil.mp hsub) hsep
    | cons c cs =>
      have hcs : cs.length ≤ f := by simpa using hf
      simp only [splitOnF]
      by_cases hguard : (!sep.isEmpty && sep.isPrefixOf (c :: cs)) = true
      · rw [if_pos hguard]
        have h1 : splitOnF sep f ((c :: cs).drop sep.length) ≠ [] :=
          splitOnF_ne_nil sep f _
        have h2 : 1 ≤ (splitOnF sep f ((c :: cs).drop sep.length)).length :=
          Nat.one_le_iff_ne_zero.mpr (fun h => h1 (List.length_eq_zero.mp h))
        simp only [List.length_cons]
        omega
      · rw [if_neg hguard]
        have hnp : ¬ sep <+: (c :: cs) := by
          intro hp
          exact hguard ((guard_iff sep (c :: cs)).mpr ⟨hsep, hp⟩)
        have hics : sep <:+: cs := by
          rcases List.infix_cons_iff.mp hsub with hp | hi
          · exact absurd hp hnp
          · exact hi
        have h2 := ih cs hcs hics
        obtain ⟨ch0, r0, he0⟩ : ∃ ch0 r0, splitOnF sep f cs = ch0 :: r0 := by
          cases h0 : splitOnF sep f cs with
          | nil => exact absurd h0 (splitOnF_ne_nil sep f cs)
          | cons a b => exact ⟨a, b, rfl⟩
        rw [he0]
        rw [he0] at h2
        simp only [List.length_cons] at h2 ⊢
        omega

theorem splitOnL_two_chunks {sep s : List Char} (hsep : sep ≠ [])
    (hsub : sep <:+: s) : 2 ≤ (splitOnL sep s).length :=
  splitOnF_two_chunks hsep s.length s (Nat.le_refl _) hsub

theorem splitOnF_length_count (sep : List Char) :
    ∀ (f : Nat) (s : List Char), s.length ≤ f →
      (splitOnF sep f s).length = countOccF sep f s + 1 := by
  intro f
  induction f with
  | zero =>
    intro s hf
    have : s = [] := List.length_eq_zero.mp (Nat.le_zero.mp hf)
    subst this
    rfl
  | succ f ih =>
    intro s hf
    cases s with
    | nil => rfl
    | cons c cs =>
      have hcs : cs.length ≤ f := by simpa using hf
      simp only [splitOnF, countOccF]
      by_cases hguard : (!sep.isEmpty && sep.isPrefixOf (c :: cs)) = true
      · rw [if_pos hguard, if_pos hguard]
        have hsep : sep ≠ [] := ((guard_iff sep (c :: cs)).mp hguard).1
        have hsl : 1 ≤ sep.length := List.length_pos.mpr hsep
        have hd : ((c :: cs).drop sep.length).length ≤ f := by
          simp only [List.length_drop, List.length_cons]
          omega
        have := ih _ hd
        simp only [List.length_cons]
        omega
      · rw [if_neg hguard, if_neg hguard]
        obtain ⟨ch0, r0, he0⟩ : ∃ ch0 r0, splitOnF sep f cs = ch0 :: r0 := by
          cases h0 : splitOnF sep f cs with
          | nil => exact absurd h0 (splitOnF_ne_nil sep f cs)
          | cons a b => exact ⟨a, b, rfl⟩
        have := ih cs hcs
        rw [he0] at this ⊢
        simp only [List.length_cons] at this ⊢
        omega

theorem splitOnL_length_count (sep s : List Char) :
    (splitOnL sep s).length = countOcc sep s + 1 :=
  splitOnF_length_count sep s.length s (Nat.le_refl _)

theorem countOccF_zero {pat : List Char} :
    ∀ (f : Nat) (s : List Char), s.length ≤ f → ¬ pat <:+: s →
      countOccF pat f s = 0 := by
  intro f
  induction f with
  | zero =>
    intro s hf _
    have : s = [] := List.length_eq_zero.mp (Nat.le_zero.mp hf)
    subst this
    rfl
  | succ f ih =>
    intro s hf hni
    cases s with
    | nil => rfl
    | cons c cs =>
      have hcs : cs.length ≤ f := by simpa using hf
      simp only [countOccF]
      by_cases hguard : (!pat.isEmpty && pat.isPrefixOf (c :: cs)) = true
      · exact absurd ((guard_iff pat (c :: cs)).mp hguard).2.isInfix hni
      · rw [if_neg hguard]
        exact ih cs hcs (fun hi => hni (List.infix_cons_iff.mpr (Or.inr hi)))

theorem countOcc_zero {pat s : List Char} (hni : ¬ pat <:+: s) :
    countOcc pat s = 0 :=
  countOccF_zero s.length s (Nat.le_refl _) hni

theorem sub_of_countOcc_pos {pat s : List Char} (h : 1 ≤ countOcc pat s) :
    pat <:+: s := by
  by_contra hni
  rw [countOcc_zero hni] at h
  omega

theorem rep_sub_replaceAll {sep s : List Char} (rep : List Char)
    (hsep : sep ≠ []) (hsub : sep <:+: s) : rep <:+: replaceAll sep rep s := by
  have h2 := splitOnL_two_chunks hsep hsub
  unfold replaceAll
  cases he : splitOnL sep s with
  | nil => exact absurd he (splitOnL_ne_nil sep s)
  | cons a t =>
    cases t with
    | nil =>
      rw [he] at h2
      simp at h2
    | cons b r =>
      show rep <:+: interc rep (a :: b :: r)
      have : interc rep (a :: b :: r) = a ++ (rep ++ interc rep (b :: r)) := by
        simp [interc]
      rw [this]
      exact List.infix_append' a rep (interc rep (b :: r))

/-! ### Decomposition of occurrences across concatenation -/

theorem pref_append_cases {p l r : List Char} (h : p <+: l ++ r) :
    p <+: l ∨ l <+: p :=
  List.prefix_or_prefix_of_prefix h (List.prefix_append l r)

theorem drop_pref_of_pref {p l r : List Char} (h1 : l <+: p)
    (h2 : p <+: l ++ r) : p.drop l.length <+: r := by
  have hp : l ++ p.drop l.length = p := List.prefix_iff_eq_append.mp h1
  obtain ⟨t, ht⟩ := h2
  have : l ++ (p.drop l.length ++ t) = l ++ r := by
    rw [← List.append_assoc, hp, ht]
  exact ⟨t, List.append_cancel_left this⟩

theorem suf_append_cases {x y z : List Char} (h : x <:+ y ++ z) :
    x <:+ z ∨ z <:+ x :=
  List.suffix_or_suffix_of_suffix h (List.suffix_append y z)

theorem sub_append_tri {p : List Char} :
    ∀ {l r : List Char}, p <:+: l ++ r →
      p <:+: l ∨ p <:+: r ∨
      ∃ a, 0 < a ∧ a < p.length ∧ p.take a <:+ l ∧ p.drop a <+: r := by
  intro l
  induction l with
  | nil =>
    intro r h
    exact Or.inr (Or.inl (by simpa using h))
  | cons x l' ih =>
    intro r h
    rw [List.cons_append] at h
    rcases List.infix_cons_iff.mp h with hp | hi
    · have hp' : p <+: (x :: l') ++ r := by simpa using hp
      rcases pref_append_cases hp' with h1 | h1
      · exact Or.inl h1.isInfix
      · by_cases hlen : p.length ≤ (x :: l').length
        · have hll : (x :: l').length = p.length :=
            Nat.le_antisymm h1.length_le hlen
          have : p = x :: l' := (h1.eq_of_length hll).symm
          exact Or.inl (this ▸ List.infix_rfl)
        · push_neg at hlen
          refine Or.inr (Or.inr ⟨(x :: l').length, by simp, hlen, ?_, ?_⟩)
          · have heq : p.take (x :: l').length = x :: l' :=
              (List.prefix_iff_eq_take.mp h1).symm
            rw [heq]
          · exact drop_pref_of_pref h1 hp'
    · rcases ih hi with h1 | h1 | ⟨a, ha0, hal, hsuf, hpre⟩
      · exact Or.inl (h1.trans (List.suffix_cons x l').isInfix)
      · exact Or.inr (Or.inl h1)
      · exact Or.inr (Or.inr ⟨a, ha0, hal, hsuf.trans (List.suffix_cons x l'), hpre⟩)

theorem sub_append_mid_cases {x a b c : List Char} (hx : x ≠ []) (hb : b ≠ [])
    (hdis : ∀ c1 ∈ x, c1 ∉ b) (h : x <:+: a ++ (b ++ c)) :
    x <:+: a ∨ x <:+: c := by
  rcases sub_append_tri h with h1 | h1 | ⟨k, hk0, hkl, hsuf, hpre⟩
  · exact Or.inl h1
  · rcases sub_append_tri h1 with h2 | h2 | ⟨k, hk0, hkl, hsuf, hpre⟩
    · obtain ⟨c1, hc1⟩ := List.exists_mem_of_ne_nil x hx
      exact absurd (h2.subset hc1) (hdis c1 hc1)
    · exact Or.inr h2
    · have hne : x.take k ≠ [] := by
        intro he
        have hlk : (x.take k).length = k := by
          rw [List.length_take]
          omega
        rw [he] at hlk
        simp at hlk
        omega
      obtain ⟨c1, hc1⟩ := List.exists_mem_of_ne_nil _ hne
      have hcx : c1 ∈ x := List.mem_of_mem_take hc1
      exact absurd (hsuf.subset hc1) (hdis c1 hcx)
  · rcases pref_append_cases hpre with h2 | h2
    · have hne : x.drop k ≠ [] := by
        intro he
        have := congrArg List.length he
        simp only [List.length_drop, List.length_nil] at this
        omega
      obtain ⟨c1, hc1⟩ := List.exists_mem_of_ne_nil _ hne
      have hcx : c1 ∈ x := List.mem_of_mem_drop hc1
      exact absurd (h2.subset hc1) (hdis c1 hcx)
    · obtain ⟨c1, hc1⟩ := List.exists_mem_of_ne_nil b hb
      have hcd : c1 ∈ x.drop k := h2.subset hc1
      exact absurd hc1 (hdis c1 (List.mem_of_mem_drop hcd))

/-! ### No occurrence of a pattern survives or is created by a replacement -/

theorem not_sub_interc {pat rep : List Char} (hpat : pat ≠ [])
    (hA : ¬ pat <:+: rep) (hNS : NoStraddle pat rep) :
    ∀ chunks : List (List Char), (∀ ch ∈ chunks, ¬ pat <:+: ch) →
      ¬ pat <:+: interc rep chunks := by
  intro chunks
  induction chunks with
  | nil =>
    intro _ h
    simp only [interc] at h
    exact hpat (List.infix_nil.mp h)
  | cons a t ih =>
    intro hch
    cases t with
    | nil => simpa [interc] using hch a (by simp)
    | cons b r =>
      intro hsub
      have he : interc rep (a :: b :: r) = a ++ (rep ++ interc rep (b :: r)) := by
        simp [interc]
      rw [he] at hsub
      rcases sub_append_tri hsub with h1 | h1 | ⟨k, hk0, hkl, hsuf, hpre⟩
      · exact hch a (by simp) h1
      · rcases sub_append_tri h1 with h2 | h2 | ⟨k, hk0, hkl, hsuf, hpre⟩
        · exact hA h2
        · exact ih (fun ch h => hch ch (List.mem_cons_of_mem a h)) h2
        · exact hNS.1 k hk0 hkl hsuf
      · rcases pref_append_cases hpre with h2 | h2
        · exact (hNS.2 k hk0 hkl).1 h2
        · exact (hNS.2 k hk0 hkl).2 h2

theorem not_sub_replaceAll_self {pat rep s : List Char} (hpat : pat ≠ [])
    (hsafe : SafePair pat rep) : ¬ pat <:+: replaceAll pat rep s :=
  not_sub_interc hpat hsafe.1 hsafe.2 _ (fun _ hch => splitOnL_chunk_no_sep hpat hch)

theorem not_sub_replaceAll_other {pat sep rep s : List Char} (hpat : pat ≠ [])
    (hsafe : SafePair pat rep) (hs : ¬ pat <:+: s) :
    ¬ pat <:+: replaceAll sep rep s :=
  not_sub_interc hpat hsafe.1 hsafe.2 _
    (fun _ hch hsub => hs (hsub.trans (splitOnL_chunk_sub hch)))

/-! ### Counting occurrences across concatenation and replacement -/

theorem countOcc_append_aux {pat : List Char} (hpat : pat ≠ []) :
    ∀ (n : Nat) (a b : List Char), a.length ≤ n →
      (∀ k, 0 < k → k < pat.length → ¬ (pat.take k <:+ a ∧ pat.drop k <+: b)) →
      countOcc pat (a ++ b) = countOcc pat a + countOcc pat b := by
  intro n
  induction n with
  | zero =>
    intro a b ha _
    have : a = [] := List.length_eq_zero.mp (Nat.le_zero.mp ha)
    subst this
    simp [countOcc_nil]
  | succ n ih =>
    intro a b ha H
    cases a with
    | nil => simp [countOcc_nil]
    | cons c cs =>
      have hcs : cs.length ≤ n := by simpa using ha
      have hpl : 1 ≤ pat.length := List.length_pos.mpr hpat
      by_cases hp : pat <+: (c :: cs) ++ b
      · by_cases hlen : pat.length ≤ (c :: cs).length
        · have hpa : pat <+: (c :: cs) := (List.isPrefix_append_of_length hlen).mp hp
          have hp' : pat <+: c :: (cs ++ b) := by
            rw [← List.cons_append]
            exact hp
          have e1 : countOcc pat ((c :: cs) ++ b)
              = countOcc pat ((c :: (cs ++ b)).drop pat.length) + 1 := by
            rw [List.cons_append]
            exact countOcc_cons_pos hpat hp'
          have e2 : countOcc pat (c :: cs)
              = countOcc pat ((c :: cs).drop pat.length) + 1 :=
            countOcc_cons_pos hpat hpa
          have e3 : (c :: (cs ++ b)).drop pat.length
              = (c :: cs).drop pat.length ++ b := by
            rw [← List.cons_append]
            exact List.drop_append_of_le_length hlen
          have hdl : ((c :: cs).drop pat.length).length ≤ n := by
            simp only [List.length_drop, List.length_cons]
            omega
          have hH : ∀ k, 0 < k → k < pat.length →
              ¬ (pat.take k <:+ (c :: cs).drop pat.length ∧ pat.drop k <+: b) := by
            intro k hk0 hkl ⟨hs1, hs2⟩
            exact H k hk0 hkl ⟨hs1.trans (List.drop_suffix _ _), hs2⟩
          rw [e1, e3, ih _ b hdl hH, e2]
          omega
        · push_neg at hlen
          rcases pref_append_cases hp with h1 | h1
          · have := h1.length_le
            omega
          · have hk0 : 0 < (c :: cs).length := by simp
            have htk : pat.take (c :: cs).length = c :: cs :=
              (List.prefix_iff_eq_take.mp h1).symm
            have hdp : pat.drop (c :: cs).length <+: b := drop_pref_of_pref h1 hp
            have hsf : pat.take (c :: cs).length <:+ c :: cs := by
              rw [htk]
            exact absurd ⟨hsf, hdp⟩ (H (c :: cs).length hk0 hlen)
      · have hpa : ¬ pat <+: (c :: cs) := by
          intro h
          exact hp (h.trans (List.prefix_append (c :: cs) b))
        have hp' : ¬ pat <+: c :: (cs ++ b) := by
          rw [← List.cons_append]
          exact hp
        have e1 : countOcc pat ((c :: cs) ++ b) = countOcc pat (cs ++ b) := by
          rw [List.cons_append]
          exact countOcc_cons_neg hp'
        have e2 : countOcc pat (c :: cs) = countOcc pat cs :=
          countOcc_cons_neg hpa
        have hH : ∀ k, 0 < k → k < pat.length →
            ¬ (pat.take k <:+ cs ∧ pat.drop k <+: b) := by
          intro k hk0 hkl ⟨hs1, hs2⟩
          exact H k hk0 hkl ⟨hs1.trans (List.suffix_cons c cs), hs2⟩
        rw [e1, ih cs b hcs hH, e2]

theorem countOcc_append {pat a b : List Char} (hpat : pat ≠ [])
    (H : ∀ k, 0 < k → k < pat.length → ¬ (pat.take k <:+ a ∧ pat.drop k <+: b)) :
    countOcc pat (a ++ b) = countOcc pat a + countOcc pat b :=
  countOcc_append_aux hpat a.length a b (Nat.le_refl _) H

theorem countOcc_interc {pat rep : List Char} (hpat : pat ≠ [])
    (hNS : NoStraddle pat rep) :
    ∀ chunks : List (List Char),
      countOcc pat (interc rep chunks) =
        (chunks.map (countOcc pat)).sum + (chunks.length - 1) * countOcc pat rep := by
  intro chunks
  induction chunks with
  | nil => simp [interc, countOcc_nil]
  | cons a t ih =>
    cases t with
    | nil => simp [interc]
    | cons b r =>
      have he : interc rep (a :: b :: r) = a ++ (rep ++ interc rep (b :: r)) := by
        simp [interc]
      rw [he]
      have H1 : ∀ k, 0 < k → k < pat.length →
          ¬ (pat.take k <:+ a ∧ pat.drop k <+: rep ++ interc rep (b :: r)) := by
        intro k hk0 hkl ⟨_, hs2⟩
        rcases pref_append_cases hs2 with h2 | h2
        · exact (hNS.2 k hk0 hkl).1 h2
        · exact (hNS.2 k hk0 hkl).2 h2
      have H2 : ∀ k, 0 < k → k < pat.length →
          ¬ (pat.take k <:+ rep ∧ pat.drop k <+: interc rep (b :: r)) := by
        intro k hk0 hkl ⟨hs1, _⟩
        exact hNS.1 k hk0 hkl hs1
      rw [countOcc_append hpat H1, countOcc_append hpat H2, ih]
      simp only [List.map_cons, List.sum_cons, List.length_cons,
        Nat.add_sub_cancel]
      ring

theorem countOcc_replaceAll {pat sep rep s : List Char} (hpat : pat ≠ [])
    (hsep : sep ≠ []) (hNSs : NoStraddle pat sep) (hNSr : NoStraddle pat rep)
    (hcs : countOcc pat sep = 0) (hcr : countOcc pat rep = 0) :
    countOcc pat (replaceAll sep rep s) = countOcc pat s := by
  have h1 : countOcc pat s
      = ((splitOnL sep s).map (countOcc pat)).sum
        + ((splitOnL sep s).length - 1) * countOcc pat sep := by
    conv_lhs => rw [← splitOnL_reconstruct hsep s]
    exact countOcc_interc hpat hNSs _
  show countOcc pat (interc rep (splitOnL sep s)) = _
  rw [countOcc_interc hpat hNSr, hcr, h1, hcs]

/-! ### From the executable checks to the analysis predicates -/

theorem noStraddle_of_checks {pat rep : List Char}
    (h : straddleChecks pat rep = true) : NoStraddle pat rep := by
  unfold straddleChecks at h
  rw [Bool.and_eq_true] at h
  obtain ⟨hj, hb⟩ := h
  constructor
  · intro a ha0 hal hsuf
    have hta : (pat.take a).length = a := by
      rw [List.length_take]
      omega
    have halen : a ≤ rep.length := by
      have := hsuf.length_le
      omega
    have hjlt : rep.length - a < rep.length := by omega
    have hdrop : rep.drop (rep.length - a) = pat.take a := by
      have hx := List.suffix_iff_eq_drop.mp hsuf
      rw [hx]
      congr 1
      omega
    have hmem : rep.length - a ∈ List.range rep.length :=
      List.mem_range.mpr hjlt
    have hx := (List.all_eq_true.mp hj) _ hmem
    have hrs : rep.length - (rep.length - a) = a := by omega
    rw [Bool.not_eq_eq_eq_not, Bool.not_true, Bool.and_eq_false_iff] at hx
    rcases hx with hx | hx
    · rw [decide_eq_false_iff_not] at hx
      omega
    · have hpf : (rep.drop (rep.length - a)).isPrefixOf pat = true := by
        rw [List.isPrefixOf_iff_prefix, hdrop]
        exact pat.take_prefix a
      rw [hpf] at hx
      cases hx
  · intro b hb0 hbl
    have hmem : b ∈ List.range pat.length := List.mem_range.mpr hbl
    have hx := (List.all_eq_true.mp hb) _ hmem
    rw [Bool.not_eq_eq_eq_not, Bool.not_true, Bool.and_eq_false_iff] at hx
    rcases hx with hx | hx
    · rw [decide_eq_false_iff_not] at hx
      omega
    · rw [Bool.or_eq_false_iff] at hx
      obtain ⟨hx1, hx2⟩ := hx
      constructor
      · intro hc
        have ht := List.isPrefixOf_iff_prefix.mpr hc
        rw [hx1] at ht
        cases ht
      · intro hc
        have ht := List.isPrefixOf_iff_prefix.mpr hc
        rw [hx2] at ht
        cases ht

theorem safePair_of_checks {pat rep : List Char}
    (h : safeChecks pat rep = true) : SafePair pat rep := by
  unfold safeChecks at h
  rw [Bool.and_eq_true] at h
  refine ⟨?_, noStraddle_of_checks h.2⟩
  intro hsub
  have h1 := h.1
  rw [inStr_iff.mpr hsub] at h1
  cases h1

theorem dateShape_props {d : List Char} (h : isDateShape d = true) :
    d.length = 10 ∧ d ≠ [] ∧ ∀ ch ∈ d, dateChar ch = true := by
  rcases d with - | ⟨c0, - | ⟨c1, - | ⟨c2, - | ⟨c3, - | ⟨c4, - | ⟨c5, - |
    ⟨c6, - | ⟨c7, - | ⟨c8, - | ⟨c9, - | ⟨c10, tl⟩⟩⟩⟩⟩⟩⟩⟩⟩⟩⟩ <;>
    try exact Bool.noConfusion h
  simp only [isDateShape, Bool.and_eq_true] at h
  obtain ⟨⟨⟨⟨⟨⟨⟨⟨⟨h0, h1⟩, h2⟩, h3⟩, h4⟩, h5⟩, h6⟩, h7⟩, h8⟩, h9⟩ := h
  refine ⟨rfl, by simp, ?_⟩
  intro ch hch
  simp only [List.mem_cons, List.not_mem_nil, or_false] at hch
  rcases hch with rfl | rfl | rfl | rfl | rfl | rfl | rfl | rfl | rfl | rfl <;>
    simp [dateChar, h0, h1, h2, h3, h4, h5, h6, h7, h8, h9]

theorem issue_date_shape : ∀ {s d : List Char},
    issue_date s = some d → isDateShape d = true := by
  intro s
  induction s with
  | nil =>
    intro d h
    simp [issue_date] at h
  | cons c cs ih =>
    intro d h
    simp only [issue_date] at h
    by_cases hg : (fecfac_str.isPrefixOf (c :: cs)
        && isDateShape (((c :: cs).drop 8).take 10)) = true
    · rw [if_pos hg] at h
      rw [Bool.and_eq_true] at hg
      obtain ⟨-, h2⟩ := hg
      injection h with h
      rw [← h]
      exact h2
    · rw [if_neg hg] at h
      exact ih h

theorem colon_mem_P0 : ':' ∈ periodP0 := by decide

theorem colon_mem_P2 : ':' ∈ periodP2 := by decide

theorem period_decomp (d : List Char) :
    new_invoice_period d = periodP0 ++ (d ++ (periodP1 ++ (d ++ periodP2))) := by
  simp [new_invoice_period, List.append_assoc]

theorem colon_mem_period (d : List Char) : ':' ∈ new_invoice_period d := by
  rw [period_decomp]
  exact List.mem_append_left _ colon_mem_P0

theorem periodSafe_of_checks {X d : List Char} (hchk : periodChecks X = true)
    (hd : isDateShape d = true) : SafePair X (new_invoice_period d) := by
  obtain ⟨hd10, hdne, hdch⟩ := dateShape_props hd
  unfold periodChecks at hchk
  simp only [Bool.and_eq_true] at hchk
  obtain ⟨⟨⟨⟨⟨⟨⟨hne, hnd⟩, hnc⟩, h0⟩, h1⟩, h2⟩, hjchk⟩, hbchk⟩ := hchk
  have hXne : X ≠ [] := by simpa [List.isEmpty_iff] using hne
  have hXnd : ∀ ch ∈ X, dateChar ch = false := by
    intro ch hch
    have := (List.all_eq_true.mp hnd) ch hch
    simpa using this
  have hXnc : ':' ∉ X := by
    intro hc
    have := (List.all_eq_true.mp hnc) _ hc
    simp at this
  have hdis : ∀ c1 ∈ X, c1 ∉ d := by
    intro c1 hc1 hcd
    have ht := hdch c1 hcd
    rw [hXnd c1 hc1] at ht
    cases ht
  have hs0 : ¬ X <:+: periodP0 := by
    intro hs
    have h0' := h0
    rw [inStr_iff.mpr hs] at h0'
    cases h0'
  have hs1 : ¬ X <:+: periodP1 := by
    intro hs
    have h1' := h1
    rw [inStr_iff.mpr hs] at h1'
    cases h1'
  have hs2 : ¬ X <:+: periodP2 := by
    intro hs
    have h2' := h2
    rw [inStr_iff.mpr hs] at h2'
    cases h2'
  constructor
  · -- X does not occur inside the block
    rw [period_decomp]
    intro hsub
    rcases sub_append_mid_cases hXne hdne hdis hsub with hc | hc
    · exact hs0 hc
    · rcases sub_append_mid_cases hXne hdne hdis hc with hc2 | hc2
      · exact hs1 hc2
      · exact hs2 hc2
  constructor
  · -- no proper front part of X ends the block
    intro a ha0 hal hsuf
    rw [period_decomp] at hsuf
    have hassoc : periodP0 ++ (d ++ (periodP1 ++ (d ++ periodP2)))
        = (periodP0 ++ d ++ periodP1 ++ d) ++ periodP2 := by
      simp [List.append_assoc]
    rw [hassoc] at hsuf
    rcases suf_append_cases hsuf with hc | hc
    · -- X.take a is a suffix of periodP2: refuted by the scan
      have hta : (X.take a).length = a := by
        rw [List.length_take]
        omega
      have halen : a ≤ periodP2.length := by
        have := hc.length_le
        omega
      have hjlt : periodP2.length - a < periodP2.length := by omega
      have hdrop : periodP2.drop (periodP2.length - a) = X.take a := by
        have hx := List.suffix_iff_eq_drop.mp hc
        rw [hx]
        congr 1
        omega
      have hmem : periodP2.length - a ∈ List.range periodP2.length :=
        List.mem_range.mpr hjlt
      have hx := (List.all_eq_true.mp hjchk) _ hmem
      rw [Bool.not_eq_eq_eq_not, Bool.not_true, Bool.and_eq_false_iff] at hx
      rcases hx with hx | hx
      · rw [decide_eq_false_iff_not] at hx
        omega
      · have hpf : (periodP2.drop (periodP2.length - a)).isPrefixOf X = true := by
          rw [List.isPrefixOf_iff_prefix, hdrop]
          exact X.take_prefix a
        rw [hpf] at hx
        cases hx
    · -- periodP2 inside X.take a would put a colon into X
      have : ':' ∈ X.take a := hc.subset colon_mem_P2
      exact hXnc (List.mem_of_mem_take this)
  · -- no proper tail part of X starts the block, and the block does not
    -- start any tail part of X
    intro b hb0 hbl
    constructor
    · intro hc
      rw [period_decomp] at hc
      rcases pref_append_cases hc with hc2 | hc2
      · have hmem : b ∈ List.range X.length := List.mem_range.mpr hbl
        have hx := (List.all_eq_true.mp hbchk) _ hmem
        rw [Bool.not_eq_eq_eq_not, Bool.not_true, Bool.and_eq_false_iff] at hx
        rcases hx with hx | hx
        · rw [decide_eq_false_iff_not] at hx
          omega
        · rw [List.isPrefixOf_iff_prefix.mpr hc2] at hx
          cases hx
      · have : ':' ∈ X.drop b := hc2.subset colon_mem_P0
        exact hXnc (List.mem_of_mem_drop this)
    · intro hc
      have : ':' ∈ X.drop b := hc.subset (colon_mem_period d)
      exact hXnc (List.mem_of_mem_drop this)

/-! Concrete safety instances, each established by evaluation. -/

theorem sp_cob_cob02 : SafePair cobertura_str cobertura_new_02 :=
  safePair_of_checks (by decide)

theorem sp_cob_cob01 : SafePair cobertura_str cobertura_new_01 :=
  safePair_of_checks (by decide)

theorem sp_cob_prestN : SafePair cobertura_str codigo_prestador_new :=
  safePair_of_checks (by decide)

theorem sp_cob_modalN : SafePair cobertura_str modalidad_pago_new :=
  safePair_of_checks (by decide)

theorem sp_cob_ncSub : SafePair cobertura_str numero_contrato_new_subsidiado :=
  safePair_of_checks (by decide)

theorem sp_cob_ncCon : SafePair cobertura_str numero_contrato_new_contributivo :=
  safePair_of_checks (by decide)

theorem sp_cob_polN : SafePair cobertura_str numero_poliza_new :=
  safePair_of_checks (by decide)

theorem sp_prest_prestN : SafePair codigo_prestador_str codigo_prestador_new :=
  safePair_of_checks (by decide)

theorem sp_prest_modalN : SafePair codigo_prestador_str modalidad_pago_new :=
  safePair_of_checks (by decide)

theorem sp_prest_ncSub : SafePair codigo_prestador_str numero_contrato_new_subsidiado :=
  safePair_of_checks (by decide)

theorem sp_prest_ncCon : SafePair codigo_prestador_str numero_contrato_new_contributivo :=
  safePair_of_checks (by decide)

theorem sp_prest_polN : SafePair codigo_prestador_str numero_poliza_new :=
  safePair_of_checks (by decide)

theorem sp_modal_modalN : SafePair modalidad_pago_str modalidad_pago_new :=
  safePair_of_checks (by decide)

theorem sp_modal_ncSub : SafePair modalidad_pago_str numero_contrato_new_subsidiado :=
  safePair_of_checks (by decide)

theorem sp_modal_ncCon : SafePair modalidad_pago_str numero_contrato_new_contributivo :=
  safePair_of_checks (by decide)

theorem sp_modal_polN : SafePair modalidad_pago_str numero_poliza_new :=
  safePair_of_checks (by decide)

theorem sp_contr_ncSub : SafePair numero_contrato_str numero_contrato_new_subsidiado :=
  safePair_of_checks (by decide)

theorem sp_contr_ncCon : SafePair numero_contrato_str numero_contrato_new_contributivo :=
  safePair_of_checks (by decide)

theorem sp_contr_polN : SafePair numero_contrato_str numero_poliza_new :=
  safePair_of_checks (by decide)

theorem sp_pol_polN : SafePair numero_poliza_str numero_poliza_new :=
  safePair_of_checks (by decide)

theorem sp_mnopbs_prestN : SafePair evento_no_pbs_str codigo_prestador_new :=
  safePair_of_checks (by decide)

theorem sp_mnopbs_modalN : SafePair evento_no_pbs_str modalidad_pago_new :=
  safePair_of_checks (by decide)

theorem sp_mnopbs_ncSub : SafePair evento_no_pbs_str numero_contrato_new_subsidiado :=
  safePair_of_checks (by decide)

theorem sp_mnopbs_ncCon : SafePair evento_no_pbs_str numero_contrato_new_contributivo :=
  safePair_of_checks (by decide)

theorem sp_mnopbs_polN : SafePair evento_no_pbs_str numero_poliza_new :=
  safePair_of_checks (by decide)

theorem sp_mpbs_prestN : SafePair evento_pbs_str codigo_prestador_new :=
  safePair_of_checks (by decide)

theorem sp_mpbs_modalN : SafePair evento_pbs_str modalidad_pago_new :=
  safePair_of_checks (by decide)

theorem sp_mpbs_ncSub : SafePair evento_pbs_str numero_contrato_new_subsidiado :=
  safePair_of_checks (by decide)

theorem sp_mpbs_ncCon : SafePair evento_pbs_str numero_contrato_new_contributivo :=
  safePair_of_checks (by decide)

theorem sp_mpbs_polN : SafePair evento_pbs_str numero_poliza_new :=
  safePair_of_checks (by decide)

theorem sp_msub_polN : SafePair subsidiado_str numero_poliza_new :=
  safePair_of_checks (by decide)

theorem sp_mcon_polN : SafePair contributivo_str numero_poliza_new :=
  safePair_of_checks (by decide)

theorem pc_cob : periodChecks cobertura_str = true := by decide

theorem pc_prest : periodChecks codigo_prestador_str = true := by decide

theorem pc_modal : periodChecks modalidad_pago_str = true := by decide

theorem pc_contr : periodChecks numero_contrato_str = true := by decide

theorem pc_pol : periodChecks numero_poliza_str = true := by decide

theorem pc_mnopbs : periodChecks evento_no_pbs_str = true := by decide

theorem pc_mpbs : periodChecks evento_pbs_str = true := by decide

theorem pc_msub : periodChecks subsidiado_str = true := by decide

theorem pc_mcon : periodChecks contributivo_str = true := by decide

theorem nsm_cobS : NoStraddle invoice_period_str cobertura_str :=
  noStraddle_of_checks (by decide)

theorem czm_cobS : countOcc invoice_period_str cobertura_str = 0 := by decide

theorem nsm_cob02 : NoStraddle invoice_period_str cobertura_new_02 :=
  noStraddle_of_checks (by decide)

theorem czm_cob02 : countOcc invoice_period_str cobertura_new_02 = 0 := by decide

theorem nsm_cob01 : NoStraddle invoice_period_str cobertura_new_01 :=
  noStraddle_of_checks (by decide)

theorem czm_cob01 : countOcc invoice_period_str cobertura_new_01 = 0 := by decide

theorem nsm_prestS : NoStraddle invoice_period_str codigo_prestador_str :=
  noStraddle_of_checks (by decide)

theorem czm_prestS : countOcc invoice_period_str codigo_prestador_str = 0 := by decide

theorem nsm_prestN : NoStraddle invoice_period_str codigo_prestador_new :=
  noStraddle_of_checks (by decide)

theorem czm_prestN : countOcc invoice_period_str codigo_prestador_new = 0 := by decide

theorem nsm_modalS : NoStraddle invoice_period_str modalidad_pago_str :=
  noStraddle_of_checks (by decide)

theorem czm_modalS : countOcc invoice_period_str modalidad_pago_str = 0 := by decide

theorem nsm_modalN : NoStraddle invoice_period_str modalidad_pago_new :=
  noStraddle_of_checks (by decide)

theorem czm_modalN : countOcc invoice_period_str modalidad_pago_new = 0 := by decide

theorem nsm_contrS : NoStraddle invoice_period_str numero_contrato_str :=
  noStraddle_of_checks (by decide)

theorem czm_contrS : countOcc invoice_period_str numero_contrato_str = 0 := by decide

theorem nsm_ncSub : NoStraddle invoice_period_str numero_contrato_new_subsidiado :=
  noStraddle_of_checks (by decide)

theorem czm_ncSub : countOcc invoice_period_str numero_contrato_new_subsidiado = 0 := by decide

theorem nsm_ncCon : NoStraddle invoice_period_str numero_contrato_new_contributivo :=
  noStraddle_of_checks (by decide)

theorem czm_ncCon : countOcc invoice_period_str numero_contrato_new_contributivo = 0 := by decide

theorem nsm_polS : NoStraddle invoice_period_str numero_poliza_str :=
  noStraddle_of_checks (by decide)

theorem czm_polS : countOcc invoice_period_str numero_poliza_str = 0 := by decide

theorem nsm_polN : NoStraddle invoice_period_str numero_poliza_new :=
  noStraddle_of_checks (by decide)

theorem czm_polN : countOcc invoice_period_str numero_poliza_new = 0 := by decide



/-! ### Behaviour of the six rules needed for idempotence -/

theorem prest_id {x : List Char} (h : ¬ codigo_prestador_str <:+: x) :
    logic_codigo_prestador x = x := by
  have hb : inStr codigo_prestador_str x = false := by
    rw [Bool.eq_false_iff]
    intro hc
    exact h (inStr_iff.mp hc)
  simp [logic_codigo_prestador, hb]

theorem modal_id {x : List Char} (h : ¬ modalidad_pago_str <:+: x) :
    logic_modalidad_pago x = x := by
  have hb : inStr modalidad_pago_str x = false := by
    rw [Bool.eq_false_iff]
    intro hc
    exact h (inStr_iff.mp hc)
  simp [logic_modalidad_pago, hb]

theorem pol_id {x : List Char} (h : ¬ numero_poliza_str <:+: x) :
    logic_numero_poliza x = x := by
  have hb : inStr numero_poliza_str x = false := by
    rw [Bool.eq_false_iff]
    intro hc
    exact h (inStr_iff.mp hc)
  simp [logic_numero_poliza, hb]

theorem cob_id_not_sub {x : List Char} (h : ¬ cobertura_str <:+: x) :
    logic_cobertura x = x := by
  have hb : inStr cobertura_str x = false := by
    rw [Bool.eq_false_iff]
    intro hc
    exact h (inStr_iff.mp hc)
  simp [logic_cobertura, hb]

theorem cob_id_no_markers {x : List Char} (h1 : ¬ evento_no_pbs_str <:+: x)
    (h2 : ¬ evento_pbs_str <:+: x) : logic_cobertura x = x := by
  have hb1 : inStr evento_no_pbs_str x = false := by
    rw [Bool.eq_false_iff]
    intro hc
    exact h1 (inStr_iff.mp hc)
  have hb2 : inStr evento_pbs_str x = false := by
    rw [Bool.eq_false_iff]
    intro hc
    exact h2 (inStr_iff.mp hc)
  simp [logic_cobertura, hb1, hb2]

theorem contr_id_not_sub {x : List Char} (h : ¬ numero_contrato_str <:+: x) :
    logic_numero_contrato x = x := by
  have hb : inStr numero_contrato_str x = false := by
    rw [Bool.eq_false_iff]
    intro hc
    exact h (inStr_iff.mp hc)
  simp [logic_numero_contrato, hb]

theorem contr_id_no_markers {x : List Char} (h1 : ¬ subsidiado_str <:+: x)
    (h2 : ¬ contributivo_str <:+: x) : logic_numero_contrato x = x := by
  have hb1 : inStr subsidiado_str x = false := by
    rw [Bool.eq_false_iff]
    intro hc
    exact h1 (inStr_iff.mp hc)
  have hb2 : inStr contributivo_str x = false := by
    rw [Bool.eq_false_iff]
    intro hc
    exact h2 (inStr_iff.mp hc)
  simp [logic_numero_contrato, hb1, hb2]

theorem per_id_marker {x : List Char} (h : inStr invoice_period_str x = true) :
    logic_invoice_period x = x := by
  simp [logic_invoice_period, h]

theorem prest_kills (x : List Char) :
    ¬ codigo_prestador_str <:+: logic_codigo_prestador x := by
  unfold logic_codigo_prestador update_content
  split_ifs with h
  · exact not_sub_replaceAll_self (by decide) sp_prest_prestN
  · intro hs
    exact h (inStr_iff.mpr hs)

theorem modal_kills (x : List Char) :
    ¬ modalidad_pago_str <:+: logic_modalidad_pago x := by
  unfold logic_modalidad_pago update_content
  split_ifs with h
  · exact not_sub_replaceAll_self (by decide) sp_modal_modalN
  · intro hs
    exact h (inStr_iff.mpr hs)

theorem pol_kills (x : List Char) :
    ¬ numero_poliza_str <:+: logic_numero_poliza x := by
  unfold logic_numero_poliza update_content
  split_ifs with h
  · exact not_sub_replaceAll_self (by decide) sp_pol_polN
  · intro hs
    exact h (inStr_iff.mpr hs)

theorem cob_cases (x : List Char) :
    (¬ cobertura_str <:+: logic_cobertura x)
    ∨ (logic_cobertura x = x ∧ ¬ evento_no_pbs_str <:+: x ∧ ¬ evento_pbs_str <:+: x) := by
  unfold logic_cobertura update_content
  split_ifs with h1 h2 h3
  · exact Or.inl (not_sub_replaceAll_self (by decide) sp_cob_cob02)
  · exact Or.inl (not_sub_replaceAll_self (by decide) sp_cob_cob01)
  · exact Or.inr ⟨rfl, fun hs => h2 (inStr_iff.mpr hs), fun hs => h3 (inStr_iff.mpr hs)⟩
  · exact Or.inl (fun hs => h1 (inStr_iff.mpr hs))

theorem contr_cases (x : List Char) :
    (¬ numero_contrato_str <:+: logic_numero_contrato x)
    ∨ (logic_numero_contrato x = x ∧ ¬ subsidiado_str <:+: x ∧ ¬ contributivo_str <:+: x) := by
  unfold logic_numero_contrato update_content
  split_ifs with h1 h2 h3
  · exact Or.inl (not_sub_replaceAll_self (by decide) sp_contr_ncSub)
  · exact Or.inl (not_sub_replaceAll_self (by decide) sp_contr_ncCon)
  · exact Or.inr ⟨rfl, fun hs => h2 (inStr_iff.mpr hs), fun hs => h3 (inStr_iff.mpr hs)⟩
  · exact Or.inl (fun hs => h1 (inStr_iff.mpr hs))

theorem pres_cob {X : List Char} (hX : X ≠ [])
    (h02 : SafePair X cobertura_new_02) (h01 : SafePair X cobertura_new_01)
    {x : List Char} (h : ¬ X <:+: x) : ¬ X <:+: logic_cobertura x := by
  unfold logic_cobertura update_content
  split_ifs
  · exact not_sub_replaceAll_other hX h02 h
  · exact not_sub_replaceAll_other hX h01 h
  · exact h
  · exact h

theorem pres_prest {X : List Char} (hX : X ≠ [])
    (hs : SafePair X codigo_prestador_new)
    {x : List Char} (h : ¬ X <:+: x) : ¬ X <:+: logic_codigo_prestador x := by
  unfold logic_codigo_prestador update_content
  split_ifs
  · exact not_sub_replaceAll_other hX hs h
  · exact h

theorem pres_modal {X : List Char} (hX : X ≠ [])
    (hs : SafePair X modalidad_pago_new)
    {x : List Char} (h : ¬ X <:+: x) : ¬ X <:+: logic_modalidad_pago x := by
  unfold logic_modalidad_pago update_content
  split_ifs
  · exact not_sub_replaceAll_other hX hs h
  · exact h

theorem pres_contr {X : List Char} (hX : X ≠ [])
    (hsub : SafePair X numero_contrato_new_subsidiado)
    (hcon : SafePair X numero_contrato_new_contributivo)
    {x : List Char} (h : ¬ X <:+: x) : ¬ X <:+: logic_numero_contrato x := by
  unfold logic_numero_contrato update_content
  split_ifs
  · exact not_sub_replaceAll_other hX hsub h
  · exact not_sub_replaceAll_other hX hcon h
  · exact h
  · exact h

theorem pres_pol {X : List Char} (hX : X ≠ [])
    (hs : SafePair X numero_poliza_new)
    {x : List Char} (h : ¬ X <:+: x) : ¬ X <:+: logic_numero_poliza x := by
  unfold logic_numero_poliza update_content
  split_ifs
  · exact not_sub_replaceAll_other hX hs h
  · exact h

theorem pres_per {X : List Char} (hchk : periodChecks X = true)
    {x : List Char} (h : ¬ X <:+: x) : ¬ X <:+: logic_invoice_period x := by
  have hX : X ≠ [] := by
    unfold periodChecks at hchk
    simp only [Bool.and_eq_true] at hchk
    simpa [List.isEmpty_iff] using hchk.1.1.1.1.1.1.1
  unfold logic_invoice_period update_content
  split_ifs
  · exact h
  · exact h
  · cases hd : issue_date x with
    | none => exact h
    | some d =>
      exact not_sub_replaceAll_other hX
        (periodSafe_of_checks hchk (issue_date_shape hd)) h


theorem marker_sub_period (d : List Char) :
    invoice_period_str <:+: new_invoice_period d := by
  rw [period_decomp]
  have h0 : invoice_period_str <:+: periodP0 := by decide
  exact h0.trans (List.prefix_append _ _).isInfix

/-- C2: for every document, applying the full patch pipeline twice yields
content identical to applying it once: after one pass every field rule and
the period rule act as the identity, because the placeholder shapes no
longer occur (or their context markers are still absent) and the period
presence check holds. -/
theorem claim_C2 (c : List Char) :
    process_all (process_all c) = process_all c := by
  unfold process_all
  set a1 := logic_cobertura c with ha1
  set a2 := logic_codigo_prestador a1 with ha2
  set a3 := logic_modalidad_pago a2 with ha3
  set a4 := logic_numero_contrato a3 with ha4
  set a5 := logic_numero_poliza a4 with ha5
  set a6 := logic_invoice_period a5 with ha6
  have h1 : logic_cobertura a6 = a6 := by
    rcases cob_cases c with hdead | ⟨hid, hm1, hm2⟩
    · have h6 : ¬ cobertura_str <:+: a6 := by
        rw [ha6, ha5, ha4, ha3, ha2]
        exact pres_per pc_cob (pres_pol (by decide) sp_cob_polN
          (pres_contr (by decide) sp_cob_ncSub sp_cob_ncCon
            (pres_modal (by decide) sp_cob_modalN
              (pres_prest (by decide) sp_cob_prestN hdead))))
      exact cob_id_not_sub h6
    · have hm1a : ¬ evento_no_pbs_str <:+: a1 := by
        rw [ha1, hid]
        exact hm1
      have hm2a : ¬ evento_pbs_str <:+: a1 := by
        rw [ha1, hid]
        exact hm2
      have hm1b : ¬ evento_no_pbs_str <:+: a6 := by
        rw [ha6, ha5, ha4, ha3, ha2]
        exact pres_per pc_mnopbs (pres_pol (by decide) sp_mnopbs_polN
          (pres_contr (by decide) sp_mnopbs_ncSub sp_mnopbs_ncCon
            (pres_modal (by decide) sp_mnopbs_modalN
              (pres_prest (by decide) sp_mnopbs_prestN hm1a))))
      have hm2b : ¬ evento_pbs_str <:+: a6 := by
        rw [ha6, ha5, ha4, ha3, ha2]
        exact pres_per pc_mpbs (pres_pol (by decide) sp_mpbs_polN
          (pres_contr (by decide) sp_mpbs_ncSub sp_mpbs_ncCon
            (pres_modal (by decide) sp_mpbs_modalN
              (pres_prest (by decide) sp_mpbs_prestN hm2a))))
      exact cob_id_no_markers hm1b hm2b
  have h2 : logic_codigo_prestador a6 = a6 := by
    have hdead : ¬ codigo_prestador_str <:+: a2 := by
      rw [ha2]
      exact prest_kills a1
    have h6 : ¬ codigo_prestador_str <:+: a6 := by
      rw [ha6, ha5, ha4, ha3]
      exact pres_per pc_prest (pres_pol (by decide) sp_prest_polN
        (pres_contr (by decide) sp_prest_ncSub sp_prest_ncCon
          (pres_modal (by decide) sp_prest_modalN hdead)))
    exact prest_id h6
  have h3 : logic_modalidad_pago a6 = a6 := by
    have hdead : ¬ modalidad_pago_str <:+: a3 := by
      rw [ha3]
      exact modal_kills a2
    have h6 : ¬ modalidad_pago_str <:+: a6 := by
      rw [ha6, ha5, ha4]
      exact pres_per pc_modal (pres_pol (by decide) sp_modal_polN
        (pres_contr (by decide) sp_modal_ncSub sp_modal_ncCon hdead))
    exact modal_id h6
  have h4 : logic_numero_contrato a6 = a6 := by
    rcases contr_cases a3 with hdead | ⟨hid, hm1, hm2⟩
    · have h6 : ¬ numero_contrato_str <:+: a6 := by
        rw [ha6, ha5]
        exact pres_per pc_contr (pres_pol (by decide) sp_contr_polN hdead)
      exact contr_id_not_sub h6
    · have hm1a : ¬ subsidiado_str <:+: a4 := by
        rw [ha4, hid]
        exact hm1
      have hm2a : ¬ contributivo_str <:+: a4 := by
        rw [ha4, hid]
        exact hm2
      have hm1b : ¬ subsidiado_str <:+: a6 := by
        rw [ha6, ha5]
        exact pres_per pc_msub (pres_pol (by decide) sp_msub_polN hm1a)
      have hm2b : ¬ contributivo_str <:+: a6 := by
        rw [ha6, ha5]
        exact pres_per pc_mcon (pres_pol (by decide) sp_mcon_polN hm2a)
      exact contr_id_no_markers hm1b hm2b
  have h5 : logic_numero_poliza a6 = a6 := by
    have hdead : ¬ numero_poliza_str <:+: a5 := by
      rw [ha5]
      exact pol_kills a4
    have h6 : ¬ numero_poliza_str <:+: a6 := by
      rw [ha6]
      exact pres_per pc_pol hdead
    exact pol_id h6
  have h6 : logic_invoice_period a6 = a6 := by
    by_cases hmk : inStr invoice_period_str a5 = true
    · have he : a6 = a5 := by
        rw [ha6]
        exact per_id_marker hmk
      rw [he]
      exact per_id_marker hmk
    · have hmk' : inStr invoice_period_str a5 = false := Bool.eq_false_iff.mpr hmk
      by_cases hlc : inStr line_counter_str a5 = true
      · cases hd : issue_date a5 with
        | none =>
          have he : a6 = a5 := by
            rw [ha6]
            simp [logic_invoice_period, hmk', hlc, hd]
          rw [he]
          simp [logic_invoice_period, hmk', hlc, hd]
        | some d =>
          have he : a6 = replaceAll line_counter_str (new_invoice_period d) a5 := by
            rw [ha6]
            simp [logic_invoice_period, hmk', hlc, hd, update_content]
          have hsub : invoice_period_str <:+: a6 := by
            rw [he]
            exact (marker_sub_period d).trans
              (rep_sub_replaceAll _ (by decide) (inStr_iff.mp hlc))
          exact per_id_marker (inStr_iff.mpr hsub)
      · have hlc' : inStr line_counter_str a5 = false :=
          Bool.eq_false_iff.mpr hlc
        have he : a6 = a5 := by
          rw [ha6]
          simp [logic_invoice_period, hmk', hlc']
        rw [he]
        simp [logic_invoice_period, hmk', hlc']
  rw [h1, h2, h3, h4, h5, h6]


/-! ### The period marker and the synthesized block -/

theorem date_disjoint {y d : List Char} (hall : ∀ ch ∈ y, dateChar ch = false)
    (hdch : ∀ ch ∈ d, dateChar ch = true) {c1 : Char} (h1 : c1 ∈ y)
    (h2 : c1 ∈ d) : False := by
  have ht := hdch c1 h2
  rw [hall c1 h1] at ht
  cases ht

theorem drop_ne_nil {y : List Char} {k : Nat} (h : k < y.length) :
    y.drop k ≠ [] := by
  intro he
  have := congrArg List.length he
  simp only [List.length_drop, List.length_nil] at this
  omega

theorem take_ne_nil {y : List Char} {k : Nat} (h0 : 0 < k) (h : k ≤ y.length) :
    y.take k ≠ [] := by
  intro he
  have := congrArg List.length he
  simp only [List.length_take, List.length_nil] at this
  omega

theorem marker_period_noStraddle {d : List Char} (hd : isDateShape d = true) :
    NoStraddle invoice_period_str (new_invoice_period d) := by
  obtain ⟨hd10, hdne, hdch⟩ := dateShape_props hd
  have h19 : invoice_period_str.length = 19 := by decide
  have h60 : periodP0.length = 60 := by decide
  have h72 : periodP2.length = 72 := by decide
  constructor
  · intro a ha0 hal hsuf
    rw [period_decomp] at hsuf
    have hassoc : periodP0 ++ (d ++ (periodP1 ++ (d ++ periodP2)))
        = (periodP0 ++ d ++ periodP1 ++ d) ++ periodP2 := by
      simp [List.append_assoc]
    rw [hassoc] at hsuf
    rcases suf_append_cases hsuf with hc | hc
    · have hta : (invoice_period_str.take a).length = a := by
        rw [List.length_take]
        omega
      have halen : a ≤ periodP2.length := by
        have := hc.length_le
        omega
      have hjlt : periodP2.length - a < periodP2.length := by omega
      have hdrop : periodP2.drop (periodP2.length - a) = invoice_period_str.take a := by
        have hx := List.suffix_iff_eq_drop.mp hc
        rw [hx]
        congr 1
        omega
      have hfact : ((List.range periodP2.length).all fun j =>
          !(decide (periodP2.length - j < invoice_period_str.length)
            && (periodP2.drop j).isPrefixOf invoice_period_str)) = true := by decide
      have hmem : periodP2.length - a ∈ List.range periodP2.length :=
        List.mem_range.mpr hjlt
      have hx := (List.all_eq_true.mp hfact) _ hmem
      rw [Bool.not_eq_eq_eq_not, Bool.not_true, Bool.and_eq_false_iff] at hx
      rcases hx with hx | hx
      · rw [decide_eq_false_iff_not] at hx
        omega
      · have hpf : (periodP2.drop (periodP2.length - a)).isPrefixOf
            invoice_period_str = true := by
          rw [List.isPrefixOf_iff_prefix, hdrop]
          exact invoice_period_str.take_prefix a
        rw [hpf] at hx
        cases hx
    · have := hc.length_le
      have hta : (invoice_period_str.take a).length = a := by
        rw [List.length_take]
        omega
      omega
  · intro b hb0 hbl
    constructor
    · intro hc
      rw [period_decomp] at hc
      rcases pref_append_cases hc with hc2 | hc2
      · have hfact : ((List.range invoice_period_str.length).all fun b =>
            !(decide (0 < b)
              && (invoice_period_str.drop b).isPrefixOf periodP0)) = true := by decide
        have hmem : b ∈ List.range invoice_period_str.length :=
          List.mem_range.mpr hbl
        have hx := (List.all_eq_true.mp hfact) _ hmem
        rw [Bool.not_eq_eq_eq_not, Bool.not_true, Bool.and_eq_false_iff] at hx
        rcases hx with hx | hx
        · rw [decide_eq_false_iff_not] at hx
          omega
        · rw [List.isPrefixOf_iff_prefix.mpr hc2] at hx
          cases hx
      · have := hc2.length_le
        simp only [List.length_drop] at this
        omega
    · intro hc
      have := hc.length_le
      have hlen : 60 ≤ (new_invoice_period d).length := by
        rw [period_decomp]
        simp only [List.length_append]
        omega
      simp only [List.length_drop] at this
      omega

theorem marker_nodate : ∀ ch ∈ invoice_period_str, dateChar ch = false := by decide

theorem marker_period_count {d : List Char} (hd : isDateShape d = true) :
    countOcc invoice_period_str (new_invoice_period d) = 1 := by
  obtain ⟨hd10, hdne, hdch⟩ := dateShape_props hd
  have hmne : invoice_period_str ≠ [] := by decide
  have h19 : invoice_period_str.length = 19 := by decide
  rw [period_decomp]
  have hright : ∀ rest : List Char, ∀ k, 0 < k → k < invoice_period_str.length →
      ¬ (invoice_period_str.take k <:+ periodP0
        ∧ invoice_period_str.drop k <+: d ++ rest) := by
    intro rest k hk0 hkl h
    obtain ⟨-, hpre⟩ := h
    have hne : invoice_period_str.drop k ≠ [] := drop_ne_nil (by omega)
    rcases pref_append_cases hpre with h2 | h2
    · obtain ⟨c1, hc1⟩ := List.exists_mem_of_ne_nil _ hne
      exact date_disjoint marker_nodate hdch (List.mem_of_mem_drop hc1) (h2.subset hc1)
    · obtain ⟨c1, hc1⟩ := List.exists_mem_of_ne_nil d hdne
      exact date_disjoint marker_nodate hdch
        (List.mem_of_mem_drop (h2.subset hc1)) hc1
  have hleft : ∀ rest : List Char, ∀ k, 0 < k → k < invoice_period_str.length →
      ¬ (invoice_period_str.take k <:+ d
        ∧ invoice_period_str.drop k <+: rest) := by
    intro rest k hk0 hkl h
    obtain ⟨hsuf, -⟩ := h
    have hne : invoice_period_str.take k ≠ [] := take_ne_nil hk0 (by omega)
    obtain ⟨c1, hc1⟩ := List.exists_mem_of_ne_nil _ hne
    exact date_disjoint marker_nodate hdch
      (List.mem_of_mem_take hc1) (hsuf.subset hc1)
  have hcd : countOcc invoice_period_str d = 0 := by
    apply countOcc_zero
    intro hs
    obtain ⟨c1, hc1⟩ := List.exists_mem_of_ne_nil _ hmne
    exact date_disjoint marker_nodate hdch hc1 (hs.subset hc1)
  have hmid : ∀ rest : List Char, ∀ k, 0 < k → k < invoice_period_str.length →
      ¬ (invoice_period_str.take k <:+ periodP1
        ∧ invoice_period_str.drop k <+: d ++ rest) := by
    intro rest k hk0 hkl h
    obtain ⟨-, hpre⟩ := h
    have hne : invoice_period_str.drop k ≠ [] := drop_ne_nil (by omega)
    rcases pref_append_cases hpre with h2 | h2
    · obtain ⟨c1, hc1⟩ := List.exists_mem_of_ne_nil _ hne
      exact date_disjoint marker_nodate hdch (List.mem_of_mem_drop hc1) (h2.subset hc1)
    · obtain ⟨c1, hc1⟩ := List.exists_mem_of_ne_nil d hdne
      exact date_disjoint marker_nodate hdch
        (List.mem_of_mem_drop (h2.subset hc1)) hc1
  rw [countOcc_append hmne (hright _), countOcc_append hmne (hleft _),
    countOcc_append hmne (hmid _), countOcc_append hmne (hleft _)]
  have c0 : countOcc invoice_period_str periodP0 = 1 := by decide
  have c1 : countOcc invoice_period_str periodP1 = 0 := by decide
  have c2 : countOcc invoice_period_str periodP2 = 0 := by decide
  omega

/-! ### The marker count is preserved by each field rule -/

theorem cm_cob (x : List Char) :
    countOcc invoice_period_str (logic_cobertura x)
      = countOcc invoice_period_str x := by
  unfold logic_cobertura update_content
  split_ifs
  · exact countOcc_replaceAll (by decide) (by decide) nsm_cobS nsm_cob02 czm_cobS czm_cob02
  · exact countOcc_replaceAll (by decide) (by decide) nsm_cobS nsm_cob01 czm_cobS czm_cob01
  · rfl
  · rfl

theorem cm_prest (x : List Char) :
    countOcc invoice_period_str (logic_codigo_prestador x)
      = countOcc invoice_period_str x := by
  unfold logic_codigo_prestador update_content
  split_ifs
  · exact countOcc_replaceAll (by decide) (by decide) nsm_prestS nsm_prestN czm_prestS czm_prestN
  · rfl

theorem cm_modal (x : List Char) :
    countOcc invoice_period_str (logic_modalidad_pago x)
      = countOcc invoice_period_str x := by
  unfold logic_modalidad_pago update_content
  split_ifs
  · exact countOcc_replaceAll (by decide) (by decide) nsm_modalS nsm_modalN czm_modalS czm_modalN
  · rfl

theorem cm_contr (x : List Char) :
    countOcc invoice_period_str (logic_numero_contrato x)
      = countOcc invoice_period_str x := by
  unfold logic_numero_contrato update_content
  split_ifs
  · exact countOcc_replaceAll (by decide) (by decide) nsm_contrS nsm_ncSub czm_contrS czm_ncSub
  · exact countOcc_replaceAll (by decide) (by decide) nsm_contrS nsm_ncCon czm_contrS czm_ncCon
  · rfl
  · rfl

theorem cm_pol (x : List Char) :
    countOcc invoice_period_str (logic_numero_poliza x)
      = countOcc invoice_period_str x := by
  unfold logic_numero_poliza update_content
  split_ifs
  · exact countOcc_replaceAll (by decide) (by decide) nsm_polS nsm_polN czm_polS czm_polN
  · rfl

/-! ### Each rule is a splice: bytes outside the replaced spans are kept -/

theorem splice_replaceAll {sep : List Char} (rep x : List Char)
    (hsep : sep ≠ []) : Splice x (replaceAll sep rep x) :=
  Or.inr ⟨sep, rep, splitOnL sep x, hsep,
    fun _ hch => splitOnL_chunk_no_sep hsep hch,
    (splitOnL_reconstruct hsep x).symm, rfl⟩

theorem splice_cob (x : List Char) : Splice x (logic_cobertura x) := by
  unfold logic_cobertura update_content
  split_ifs
  · exact splice_replaceAll _ _ (by decide)
  · exact splice_replaceAll _ _ (by decide)
  · exact Or.inl rfl
  · exact Or.inl rfl

theorem splice_prest (x : List Char) : Splice x (logic_codigo_prestador x) := by
  unfold logic_codigo_prestador update_content
  split_ifs
  · exact splice_replaceAll _ _ (by decide)
  · exact Or.inl rfl

theorem splice_modal (x : List Char) : Splice x (logic_modalidad_pago x) := by
  unfold logic_modalidad_pago update_content
  split_ifs
  · exact splice_replaceAll _ _ (by decide)
  · exact Or.inl rfl

theorem splice_contr (x : List Char) : Splice x (logic_numero_contrato x) := by
  unfold logic_numero_contrato update_content
  split_ifs
  · exact splice_replaceAll _ _ (by decide)
  · exact splice_replaceAll _ _ (by decide)
  · exact Or.inl rfl
  · exact Or.inl rfl

theorem splice_pol (x : List Char) : Splice x (logic_numero_poliza x) := by
  unfold logic_numero_poliza update_content
  split_ifs
  · exact splice_replaceAll _ _ (by decide)
  · exact Or.inl rfl

theorem splice_per (x : List Char) : Splice x (logic_invoice_period x) := by
  unfold logic_invoice_period update_content
  split_ifs
  · exact Or.inl rfl
  · exact Or.inl rfl
  · cases hd : issue_date x with
    | none => exact Or.inl rfl
    | some d => exact splice_replaceAll _ _ (by decide)


/-! ### Claims C1, C3, C4, C5, C9 -/

/-- C1: in every document where the contract-number placeholder is present,
the rule sets the value slot to 10787 when the Subsidiado marker is present
(regardless of Contributivo: the ordered if and elif short-circuit), to 3672
when only the Contributivo marker is present, and leaves the content
(in particular the placeholder) unchanged when neither marker is present. -/
theorem claim_C1 (c : List Char) (hp : inStr numero_contrato_str c = true) :
    (inStr subsidiado_str c = true →
      logic_numero_contrato c
        = replaceAll numero_contrato_str numero_contrato_new_subsidiado c
      ∧ "<Value>10787</Value>".data <:+: logic_numero_contrato c
      ∧ ¬ numero_contrato_str <:+: logic_numero_contrato c)
    ∧ (inStr subsidiado_str c = false → inStr contributivo_str c = true →
      logic_numero_contrato c
        = replaceAll numero_contrato_str numero_contrato_new_contributivo c
      ∧ "<Value>3672</Value>".data <:+: logic_numero_contrato c
      ∧ ¬ numero_contrato_str <:+: logic_numero_contrato c)
    ∧ (inStr subsidiado_str c = false → inStr contributivo_str c = false →
      logic_numero_contrato c = c) := by
  refine ⟨?_, ?_, ?_⟩
  · intro hs
    have he : logic_numero_contrato c
        = replaceAll numero_contrato_str numero_contrato_new_subsidiado c := by
      simp [logic_numero_contrato, hp, hs, update_content]
    refine ⟨he, ?_, ?_⟩
    · have hval : "<Value>10787</Value>".data <:+: numero_contrato_new_subsidiado := by
        decide
      rw [he]
      exact hval.trans (rep_sub_replaceAll _ (by decide) (inStr_iff.mp hp))
    · rw [he]
      exact not_sub_replaceAll_self (by decide) sp_contr_ncSub
  · intro hs hc
    have he : logic_numero_contrato c
        = replaceAll numero_contrato_str numero_contrato_new_contributivo c := by
      simp [logic_numero_contrato, hp, hs, hc, update_content]
    refine ⟨he, ?_, ?_⟩
    · have hval : "<Value>3672</Value>".data <:+: numero_contrato_new_contributivo := by
        decide
      rw [he]
      exact hval.trans (rep_sub_replaceAll _ (by decide) (inStr_iff.mp hp))
    · rw [he]
      exact not_sub_replaceAll_self (by decide) sp_contr_ncCon
  · intro hs hc
    simp [logic_numero_contrato, hp, hs, hc]

/-- Witness for C1: a concrete document carrying the contract placeholder and
both markers takes the subsidized branch, and one carrying only Contributivo
takes the contributory branch. -/
theorem claim_C1_witness :
    (inStr numero_contrato_str wDocContrBoth = true
      ∧ inStr subsidiado_str wDocContrBoth = true
      ∧ inStr contributivo_str wDocContrBoth = true
      ∧ "<Value>10787</Value>".data <:+: logic_numero_contrato wDocContrBoth
      ∧ ¬ numero_contrato_str <:+: logic_numero_contrato wDocContrBoth)
    ∧ (inStr numero_contrato_str wDocContrContrib = true
      ∧ inStr subsidiado_str wDocContrContrib = false
      ∧ inStr contributivo_str wDocContrContrib = true
      ∧ "<Value>3672</Value>".data <:+: logic_numero_contrato wDocContrContrib) :=
  ⟨⟨by decide, by decide, by decide,
    ((claim_C1 wDocContrBoth (by decide)).1 (by decide)).2.1,
    ((claim_C1 wDocContrBoth (by decide)).1 (by decide)).2.2⟩,
   ⟨by decide, by decide, by decide,
    ((claim_C1 wDocContrContrib (by decide)).2.1 (by decide) (by decide)).2.1⟩⟩

/-- C3: when the period block is absent, the anchor present and an issue
date extractable through the FecFac pattern, the synthesizer splices in,
directly after the anchor, a block whose start and end dates both equal the
extracted date, with start time 12:00:00 and end time 11:59:59; when the
anchor is absent, or no issue date is found, the document is returned
unchanged (the code only logs a warning). -/
theorem claim_C3 (c : List Char) (habs : inStr invoice_period_str c = false) :
    (∀ d, inStr line_counter_str c = true → issue_date c = some d →
      logic_invoice_period c
        = replaceAll line_counter_str (new_invoice_period d) c
      ∧ new_invoice_period d
        = line_counter_str ++ "\n<cac:InvoicePeriod>\n <cbc:StartDate>".data
          ++ d ++ "</cbc:StartDate>\n <cbc:StartTime>12:00:00</cbc:StartTime>\n <cbc:EndDate>".data
          ++ d ++ "</cbc:EndDate>\n <cbc:EndTime>11:59:59</cbc:EndTime>\n</cac:InvoicePeriod>".data
      ∧ new_invoice_period d <:+: logic_invoice_period c)
    ∧ (inStr line_counter_str c = false → logic_invoice_period c = c)
    ∧ (issue_date c = none → logic_invoice_period c = c) := by
  refine ⟨?_, ?_, ?_⟩
  · intro d hlc hd
    have he : logic_invoice_period c
        = replaceAll line_counter_str (new_invoice_period d) c := by
      simp [logic_invoice_period, habs, hlc, hd, update_content]
    refine ⟨he, ?_, ?_⟩
    · have hP0 : periodP0
          = line_counter_str ++ "\n<cac:InvoicePeriod>\n <cbc:StartDate>".data := by
        decide
      show new_invoice_period d = _
      rw [new_invoice_period, hP0, periodP1, periodP2]
    · rw [he]
      exact rep_sub_replaceAll _ (by decide) (inStr_iff.mp hlc)
  · intro hlc
    simp [logic_invoice_period, habs, hlc]
  · intro hd
    simp [logic_invoice_period, habs, hd]

/-- Witness for C3: a concrete document with the anchor and the text
FecFac: 2025-07-29 receives the synthesized block. -/
theorem claim_C3_witness :
    inStr invoice_period_str wDocPeriod = false
    ∧ inStr line_counter_str wDocPeriod = true
    ∧ issue_date wDocPeriod = some "2025-07-29".data
    ∧ new_invoice_period "2025-07-29".data <:+: logic_invoice_period wDocPeriod :=
  ⟨by decide, by decide, by decide,
   (((claim_C3 wDocPeriod (by decide)).1 "2025-07-29".data
      (by decide) (by decide)).2.2)⟩

/-- C4: on a document that already contains the period block (exactly one
occurrence of the block opening), the synthesizer is a no-op, and the whole
pipeline still leaves exactly one occurrence: the block is never
duplicated. -/
theorem claim_C4 (c : List Char) (hone : countOcc invoice_period_str c = 1) :
    logic_invoice_period c = c
    ∧ countOcc invoice_period_str (process_all c) = 1 := by
  have hsub : invoice_period_str <:+: c := sub_of_countOcc_pos (by omega)
  have hin : inStr invoice_period_str c = true := inStr_iff.mpr hsub
  refine ⟨per_id_marker hin, ?_⟩
  unfold process_all
  set a1 := logic_cobertura c with ha1
  set a2 := logic_codigo_prestador a1 with ha2
  set a3 := logic_modalidad_pago a2 with ha3
  set a4 := logic_numero_contrato a3 with ha4
  set a5 := logic_numero_poliza a4 with ha5
  have c5 : countOcc invoice_period_str a5 = 1 := by
    rw [ha5, cm_pol, ha4, cm_contr, ha3, cm_modal, ha2, cm_prest, ha1, cm_cob]
    exact hone
  have hin5 : inStr invoice_period_str a5 = true :=
    inStr_iff.mpr (sub_of_countOcc_pos (by omega))
  rw [per_id_marker hin5]
  exact c5

/-- Witness for C4: a concrete document holding one period block keeps
exactly one through the pipeline. -/
theorem claim_C4_witness :
    countOcc invoice_period_str wDocPeriodPresent = 1
    ∧ logic_invoice_period wDocPeriodPresent = wDocPeriodPresent
    ∧ countOcc invoice_period_str (process_all wDocPeriodPresent) = 1 :=
  ⟨by decide, (claim_C4 wDocPeriodPresent (by decide)).1,
   (claim_C4 wDocPeriodPresent (by decide)).2⟩

/-- C5: the pipeline output is reachable from the input by a chain of
splices, each keeping every byte outside the replaced pattern occurrences
verbatim (no whitespace or line-ending normalization), and save writes the
pipeline output verbatim to the target path. -/
theorem claim_C5 (c : List Char) :
    Relation.ReflTransGen Splice c (process_all c)
    ∧ ∀ p : SPath, (save_v2 p (process_all c) none).2 = process_all c := by
  constructor
  · show Relation.ReflTransGen Splice c (process_all c)
    unfold process_all
    exact .head (splice_cob c) (.head (splice_prest _) (.head (splice_modal _)
      (.head (splice_contr _) (.head (splice_pol _)
        (.head (splice_per _) .refl)))))
  · intro p
    rfl

theorem nsr_prestN : NoStraddle codigo_prestador_new codigo_prestador_new :=
  noStraddle_of_checks (by decide)

theorem cs1_prestN : countOcc codigo_prestador_new codigo_prestador_new = 1 := by
  decide

theorem nsr_modalN : NoStraddle modalidad_pago_new modalidad_pago_new :=
  noStraddle_of_checks (by decide)

theorem cs1_modalN : countOcc modalidad_pago_new modalidad_pago_new = 1 := by
  decide

theorem nsr_polN : NoStraddle numero_poliza_new numero_poliza_new :=
  noStraddle_of_checks (by decide)

theorem cs1_polN : countOcc numero_poliza_new numero_poliza_new = 1 := by
  decide

theorem nsr_cob02 : NoStraddle cobertura_new_02 cobertura_new_02 :=
  noStraddle_of_checks (by decide)

theorem cs1_cob02 : countOcc cobertura_new_02 cobertura_new_02 = 1 := by
  decide

theorem nsr_cob01 : NoStraddle cobertura_new_01 cobertura_new_01 :=
  noStraddle_of_checks (by decide)

theorem cs1_cob01 : countOcc cobertura_new_01 cobertura_new_01 = 1 := by
  decide

theorem nsr_ncSub : NoStraddle numero_contrato_new_subsidiado numero_contrato_new_subsidiado :=
  noStraddle_of_checks (by decide)

theorem cs1_ncSub : countOcc numero_contrato_new_subsidiado numero_contrato_new_subsidiado = 1 := by
  decide

theorem nsr_ncCon : NoStraddle numero_contrato_new_contributivo numero_contrato_new_contributivo :=
  noStraddle_of_checks (by decide)

theorem cs1_ncCon : countOcc numero_contrato_new_contributivo numero_contrato_new_contributivo = 1 := by
  decide

theorem count_rep_of_replaceAll {pat rep c : List Char} (hrep : rep ≠ [])
    (hNS : NoStraddle rep rep) (hself : countOcc rep rep = 1)
    (hnr : ¬ rep <:+: c) :
    countOcc rep (replaceAll pat rep c) = countOcc pat c := by
  show countOcc rep (interc rep (splitOnL pat c)) = _
  rw [countOcc_interc hrep hNS]
  have hsum : ((splitOnL pat c).map (countOcc rep)).sum = 0 := by
    apply List.sum_eq_zero
    intro n hn
    rw [List.mem_map] at hn
    obtain ⟨ch, hch, rfl⟩ := hn
    exact countOcc_zero (fun hs => hnr (hs.trans (splitOnL_chunk_sub hch)))
  rw [hsum, hself, splitOnL_length_count]
  omega

/-- C9: the literal-text engine replaces every occurrence, not only the
first, for each of the five field rules: with at least two placeholder
occurrences (and, for the coverage and contract rules, the context marker
that fires the branch), no placeholder occurrence survives the rule and
(when the replacement text was not already present) the replacement occurs
exactly as often as the placeholder did; likewise the period synthesizer
appends a block after every anchor occurrence, leaving as many period
markers as there were anchors. -/
theorem claim_C9 :
    (∀ c, 2 ≤ countOcc codigo_prestador_str c →
      (¬ codigo_prestador_str <:+: logic_codigo_prestador c)
      ∧ (¬ codigo_prestador_new <:+: c →
          countOcc codigo_prestador_new (logic_codigo_prestador c)
            = countOcc codigo_prestador_str c))
    ∧ (∀ c, 2 ≤ countOcc modalidad_pago_str c →
      (¬ modalidad_pago_str <:+: logic_modalidad_pago c)
      ∧ (¬ modalidad_pago_new <:+: c →
          countOcc modalidad_pago_new (logic_modalidad_pago c)
            = countOcc modalidad_pago_str c))
    ∧ (∀ c, 2 ≤ countOcc numero_poliza_str c →
      (¬ numero_poliza_str <:+: logic_numero_poliza c)
      ∧ (¬ numero_poliza_new <:+: c →
          countOcc numero_poliza_new (logic_numero_poliza c)
            = countOcc numero_poliza_str c))
    ∧ (∀ c, 2 ≤ countOcc cobertura_str c →
      (inStr evento_no_pbs_str c = true →
        (¬ cobertura_str <:+: logic_cobertura c)
        ∧ (¬ cobertura_new_02 <:+: c →
            countOcc cobertura_new_02 (logic_cobertura c)
              = countOcc cobertura_str c))
      ∧ (inStr evento_no_pbs_str c = false → inStr evento_pbs_str c = true →
        (¬ cobertura_str <:+: logic_cobertura c)
        ∧ (¬ cobertura_new_01 <:+: c →
            countOcc cobertura_new_01 (logic_cobertura c)
              = countOcc cobertura_str c)))
    ∧ (∀ c, 2 ≤ countOcc numero_contrato_str c →
      (inStr subsidiado_str c = true →
        (¬ numero_contrato_str <:+: logic_numero_contrato c)
        ∧ (¬ numero_contrato_new_subsidiado <:+: c →
            countOcc numero_contrato_new_subsidiado (logic_numero_contrato c)
              = countOcc numero_contrato_str c))
      ∧ (inStr subsidiado_str c = false → inStr contributivo_str c = true →
        (¬ numero_contrato_str <:+: logic_numero_contrato c)
        ∧ (¬ numero_contrato_new_contributivo <:+: c →
            countOcc numero_contrato_new_contributivo (logic_numero_contrato c)
              = countOcc numero_contrato_str c)))
    ∧ (∀ c d, inStr invoice_period_str c = false →
        2 ≤ countOcc line_counter_str c → issue_date c = some d →
        countOcc invoice_period_str (logic_invoice_period c)
          = countOcc line_counter_str c) := by
  refine ⟨?_, ?_, ?_, ?_, ?_, ?_⟩
  · intro c h2
    have hin : inStr codigo_prestador_str c = true :=
      inStr_iff.mpr (sub_of_countOcc_pos (by omega))
    have he : logic_codigo_prestador c
        = replaceAll codigo_prestador_str codigo_prestador_new c := by
      simp [logic_codigo_prestador, hin, update_content]
    constructor
    · rw [he]
      exact not_sub_replaceAll_self (by decide) sp_prest_prestN
    · intro hnr
      rw [he]
      exact count_rep_of_replaceAll (by decide) nsr_prestN cs1_prestN hnr
  · intro c h2
    have hin : inStr modalidad_pago_str c = true :=
      inStr_iff.mpr (sub_of_countOcc_pos (by omega))
    have he : logic_modalidad_pago c
        = replaceAll modalidad_pago_str modalidad_pago_new c := by
      simp [logic_modalidad_pago, hin, update_content]
    constructor
    · rw [he]
      exact not_sub_replaceAll_self (by decide) sp_modal_modalN
    · intro hnr
      rw [he]
      exact count_rep_of_replaceAll (by decide) nsr_modalN cs1_modalN hnr
  · intro c h2
    have hin : inStr numero_poliza_str c = true :=
      inStr_iff.mpr (sub_of_countOcc_pos (by omega))
    have he : logic_numero_poliza c
        = replaceAll numero_poliza_str numero_poliza_new c := by
      simp [logic_numero_poliza, hin, update_content]
    constructor
    · rw [he]
      exact not_sub_replaceAll_self (by decide) sp_pol_polN
    · intro hnr
      rw [he]
      exact count_rep_of_replaceAll (by decide) nsr_polN cs1_polN hnr
  · intro c h2
    have hin : inStr cobertura_str c = true :=
      inStr_iff.mpr (sub_of_countOcc_pos (by omega))
    constructor
    · intro hm
      have he : logic_cobertura c
          = replaceAll cobertura_str cobertura_new_02 c := by
        simp [logic_cobertura, hin, hm, update_content]
      constructor
      · rw [he]
        exact not_sub_replaceAll_self (by decide) sp_cob_cob02
      · intro hnr
        rw [he]
        exact count_rep_of_replaceAll (by decide) nsr_cob02 cs1_cob02 hnr
    · intro hm1 hm2
      have he : logic_cobertura c
          = replaceAll cobertura_str cobertura_new_01 c := by
        simp [logic_cobertura, hin, hm1, hm2, update_content]
      constructor
      · rw [he]
        exact not_sub_replaceAll_self (by decide) sp_cob_cob01
      · intro hnr
        rw [he]
        exact count_rep_of_replaceAll (by decide) nsr_cob01 cs1_cob01 hnr
  · intro c h2
    have hin : inStr numero_contrato_str c = true :=
      inStr_iff.mpr (sub_of_countOcc_pos (by omega))
    constructor
    · intro hm
      have he : logic_numero_contrato c
          = replaceAll numero_contrato_str numero_contrato_new_subsidiado c := by
        simp [logic_numero_contrato, hin, hm, update_content]
      constructor
      · rw [he]
        exact not_sub_replaceAll_self (by decide) sp_contr_ncSub
      · intro hnr
        rw [he]
        exact count_rep_of_replaceAll (by decide) nsr_ncSub cs1_ncSub hnr
    · intro hm1 hm2
      have he : logic_numero_contrato c
          = replaceAll numero_contrato_str numero_contrato_new_contributivo c := by
        simp [logic_numero_contrato, hin, hm1, hm2, update_content]
      constructor
      · rw [he]
        exact not_sub_replaceAll_self (by decide) sp_contr_ncCon
      · intro hnr
        rw [he]
        exact count_rep_of_replaceAll (by decide) nsr_ncCon cs1_ncCon hnr
  · intro c d hmk h2 hd
    have hsub : line_counter_str <:+: c := sub_of_countOcc_pos (by omega)
    have hin : inStr line_counter_str c = true := inStr_iff.mpr hsub
    have he : logic_invoice_period c
        = replaceAll line_counter_str (new_invoice_period d) c := by
      simp [logic_invoice_period, hmk, hin, hd, update_content]
    rw [he]
    have hshape := issue_date_shape hd
    show countOcc invoice_period_str
        (interc (new_invoice_period d) (splitOnL line_counter_str c)) = _
    rw [countOcc_interc (by decide) (marker_period_noStraddle hshape)]
    have hnsub : ¬ invoice_period_str <:+: c := by
      intro hs
      rw [inStr_iff.mpr hs] at hmk
      cases hmk
    have hsum : ((splitOnL line_counter_str c).map
        (countOcc invoice_period_str)).sum = 0 := by
      apply List.sum_eq_zero
      intro n hn
      rw [List.mem_map] at hn
      obtain ⟨ch, hch, rfl⟩ := hn
      exact countOcc_zero (fun hs => hnsub (hs.trans (splitOnL_chunk_sub hch)))
    rw [hsum, marker_period_count hshape, splitOnL_length_count]
    omega

/-- Witness for C9: two provider-code placeholders are both replaced, and a
document with two anchors receives two period blocks. -/
theorem claim_C9_witness :
    (2 ≤ countOcc codigo_prestador_str wDocPrestTwice
      ∧ ¬ codigo_prestador_str <:+: logic_codigo_prestador wDocPrestTwice
      ∧ countOcc codigo_prestador_new (logic_codigo_prestador wDocPrestTwice) = 2)
    ∧ (2 ≤ countOcc line_counter_str wDocPeriodTwice
      ∧ countOcc invoice_period_str (logic_invoice_period wDocPeriodTwice) = 2) := by
  have hc : countOcc codigo_prestador_str wDocPrestTwice = 2 := by decide
  have hl : countOcc line_counter_str wDocPeriodTwice = 2 := by decide
  refine ⟨⟨by omega, (claim_C9.1 wDocPrestTwice (by omega)).1, ?_⟩,
    ⟨by omega, ?_⟩⟩
  · rw [(claim_C9.1 wDocPrestTwice (by omega)).2 (by decide), hc]
  · rw [claim_C9.2.2.2.2.2 wDocPeriodTwice "2025-07-29".data (by decide)
      (by omega) (by decide), hl]

/-! ### Claims C6, C7, C8, C10 -/

theorem content_get_cached {s : ProcessorState} {v : List Char}
    (h : s.cached = some v) : content_get s = (v, s) := by
  simp [content_get, h]

theorem content_get_n_cached {s : ProcessorState} {v : List Char}
    (h : s.cached = some v) : ∀ n, content_get_n n s = s := by
  intro n
  induction n with
  | zero => rfl
  | succ n ih =>
    show content_get_n n (content_get s).2 = s
    rw [content_get_cached h]
    exact ih

/-- C7: the tree-engine accessor (parser.py soup) re-reads the file on every
call: its guard tests a field that its body never assigns, so two calls
perform two reads, contradicting its own docstring and the claim; the
literal-text engine content property does read exactly once, with every
access after the first returning the cached value and leaving the state
unchanged. -/
theorem claim_C7_bug :
    (soup_get (soup_get (init_soup "x".data)).2).2.file_reads = 2
    ∧ (soup_get (init_soup "x".data)).2.scontent = none
    ∧ (∀ fc n, (content_get_n (n + 1) (init_processor fc)).file_reads = 1)
    ∧ (∀ fc, content_get (content_get (init_processor fc)).2
        = (fc, (content_get (init_processor fc)).2)) := by
  refine ⟨rfl, rfl, ?_, ?_⟩
  · intro fc n
    show (content_get_n n (content_get (init_processor fc)).2).file_reads = 1
    have h2 : (content_get (init_processor fc)).2
        = ⟨fc, some fc, 1⟩ := rfl
    rw [h2, content_get_n_cached rfl]
  · intro fc
    exact content_get_cached rfl

/-- C8: the tree-based strategy patches only the slice from index 1 to
index 2 of the carrier-element match list: at most one nested document is
processed, a document with at most one carrier element yields none, and
carrier elements after the second never contribute. -/
theorem claim_C8 :
    (∀ descs : List (Option (List Char)),
      (get_all_description_xmls descs).length ≤ 1)
    ∧ (∀ descs : List (Option (List Char)), descs.length ≤ 1 →
      get_all_description_xmls descs = [])
    ∧ (∀ d1 d2 rest, get_all_description_xmls (d1 :: d2 :: rest)
        = get_all_description_xmls [d1, d2]) := by
  refine ⟨?_, ?_, ?_⟩
  · intro descs
    unfold get_all_description_xmls
    calc (((descs.drop 1).take 1).filterMap truthyContent).length
        ≤ ((descs.drop 1).take 1).length := List.length_filterMap_le _ _
      _ ≤ 1 := by
          rw [List.length_take]
          omega
  · intro descs h
    match descs with
    | [] => rfl
    | [a] => rfl
    | a :: b :: r => simp at h
  · intro d1 d2 rest
    rfl

/-- Witness for C8: a document with exactly one carrier element has zero
nested documents processed. -/
theorem claim_C8_witness :
    ([some "x".data] : List (Option (List Char))).length ≤ 1
    ∧ get_all_description_xmls [some "x".data] = [] :=
  ⟨by decide, claim_C8.2.1 [some "x".data] (by decide)⟩

/-- C6: neither engine returns the statistics record the claim (and the
docstrings) promise.  The literal-text process_all falls off the end of the
function, so its Python return value is None, no record at all; evaluated
here on the empty document.  The tree engine never even reaches its return:
soup is a plain method, not a property, so self.soup.find_all and
self.soup.find are attribute accesses on a bound method and raise
(the same defect recorded under C7). -/
theorem claim_C6_bug : (process_all_v2_ret []).2 = none := rfl

/-- C10: with no output path, save derives with_stem(stem) of the input
path, which is the input path itself (same directory, stem and suffix), so
the patched content is written over the input file and the input path is
returned. -/
theorem claim_C10 (input : SPath) (content : List Char) :
    with_stem input input.stem = input
    ∧ save_v2 input content none = (input, content) := by
  have h : with_stem input input.stem = input := rfl
  refine ⟨h, ?_⟩
  show (with_stem input input.stem, content) = (input, content)
  rw [h]

end InvoiceXml
